import Mathlib

/-!
# Vecor: a verification development for `Vecor::Vec<T>` (`src/vecor.hpp`)

`Vec<T>` is a thin wrapper around one private member, `std::vector<T> data_vec`.
The embedding below represents the contents of a `std::vector<T>` as a `List T`
and every member function of `Vec<T>` as a function on that representation.

Conventions of the embedding:

* `size_type` values (positions, sizes) are natural numbers.
* an unchecked read of the backing storage (`data_vec[pos]`) has no defined
  behaviour when `pos ≥ size()`; it is embedded as a function into `Option`,
  `none` standing for the out-of-range read.  Every operation built from such
  reads propagates `none`.
* `std::vector::at` throws `std::out_of_range`; it is embedded into `Except`.
* counted loops `for (size_type i = 0; i < n; ++i)` are embedded by `for_loop`,
  which runs the body exactly `n` times with the running index.
* functions of the C++ standard library that `Vec` forwards to
  (`std::min_element`, `std::max_element`, `std::distance`, `std::sort`) are
  embedded after their specification in the C++ standard; where the result depends on
  the implementation (the order `std::sort` leaves equivalent elements in), the
  `std::sort` of libstdc++ is embedded function by function as well.
* a member whose body is ill-formed as written yields no result at any input; it is
  embedded into `Except IllFormed`.
-/

namespace Vecor

/-! ## Data model -/

/-- The struct `Vec<T>`: its only data member is `data_vec` (`vecor.hpp:283`). -/
structure Vec (α : Type) where
  data_vec : List α
deriving DecidableEq, Repr

/-- The error thrown by `std::vector::at`. -/
inductive VecError where
  | out_of_range
deriving DecidableEq, Repr

/-- Unchecked `std::vector::operator[]`: `none` is the out-of-range read. -/
def std_vector_index {α : Type} (d : List α) (pos : Nat) : Option α :=
  d[pos]?

/-- Bounds-checked `std::vector::at`: throws `out_of_range` when `pos ≥ size()`. -/
def std_vector_at {α : Type} (d : List α) (pos : Nat) : Except VecError α :=
  match d[pos]? with
  | some x => Except.ok x
  | none => Except.error VecError.out_of_range

/-- Counted loop `for (size_type i = i0; i < i0 + n; ++i) body`, the body possibly
running into undefined behaviour (`none`).  The first argument is the number of
iterations still to run. -/
def for_loop {σ : Type} (body : Nat → σ → Option σ) : Nat → Nat → σ → Option σ
  | 0, _, s => some s
  | n + 1, i, s =>
    match body i s with
    | none => none
    | some s1 => for_loop body n (i + 1) s1

/-! ## The standard-library algorithms `Vec` forwards to

Iterators into a `std::vector` are embedded as positions: `cbegin()` is `0`, `cend()` is
the length, and dereferencing the position `cend()` is an out-of-range read. -/

/-- Dereference `*it` of an iterator into the storage `d`; `none` at `cend()`. -/
def std_deref {α : Type} (d : List α) (it : Nat) : Option α :=
  d[it]?

/-- The call `std::distance(first, last)` on random-access iterators: the signed
difference `last - first`, of type `difference_type`. -/
def std_distance (first last : Nat) : Int :=
  (last : Int) - (first : Int)

/-- The scan of `std::min_element(first, last, comp)` after its first element:
`for (; first != last; ++first) if (comp(*first, *smallest)) smallest = first;`.
The state is the position of `first` and the iterator `smallest` (position and the value
it points to). -/
def min_element_scan {α : Type} (comp : α → α → Bool) : List α → Nat → Nat × α → Nat × α
  | [], _, smallest => smallest
  | x :: rest, first, smallest =>
    if comp x smallest.2 then min_element_scan comp rest (first + 1) (first, x)
    else min_element_scan comp rest (first + 1) smallest

/-- The algorithm `std::min_element(first, last, comp)` over the whole storage: returns
`last` when the range is empty, else the iterator to the first smallest element. -/
def std_min_element_comp {α : Type} (comp : α → α → Bool) (d : List α) : Nat :=
  match d with
  | [] => 0
  | x :: rest => (min_element_scan comp rest 1 (0, x)).1

/-- The scan of `std::max_element(first, last, comp)` after its first element:
`for (; first != last; ++first) if (comp(*largest, *first)) largest = first;`. -/
def max_element_scan {α : Type} (comp : α → α → Bool) : List α → Nat → Nat × α → Nat × α
  | [], _, largest => largest
  | x :: rest, first, largest =>
    if comp largest.2 x then max_element_scan comp rest (first + 1) (first, x)
    else max_element_scan comp rest (first + 1) largest

/-- The algorithm `std::max_element(first, last, comp)` over the whole storage: returns
`last` when the range is empty, else the iterator to the first largest element. -/
def std_max_element_comp {α : Type} (comp : α → α → Bool) (d : List α) : Nat :=
  match d with
  | [] => 0
  | x :: rest => (max_element_scan comp rest 1 (0, x)).1

/-- The comparison `operator<` of the element type as a comparator object
(`std::less`), used by the overloads without a comparator argument. -/
def std_less {α : Type} [LT α] [DecidableRel (fun a b : α => a < b)] (a b : α) : Bool :=
  decide (a < b)

/-- The call `std::min_element(first, last)`: compares with `operator<`. -/
def std_min_element {α : Type} [LT α] [DecidableRel (fun a b : α => a < b)]
    (d : List α) : Nat :=
  std_min_element_comp std_less d

/-- The call `std::max_element(first, last)`: compares with `operator<`. -/
def std_max_element {α : Type} [LT α] [DecidableRel (fun a b : α => a < b)]
    (d : List α) : Nat :=
  std_max_element_comp std_less d

/-- The requirement of the C++ standard on a comparator handed to the sorting and
searching algorithms: a strict weak ordering (irreflexive, transitive, and with a
transitive incomparability relation). -/
structure StrictWeakOrdering {α : Type} (comp : α → α → Bool) : Prop where
  irrefl : ∀ a, comp a a = false
  trans : ∀ a b c, comp a b = true → comp b c = true → comp a c = true
  equiv_trans : ∀ a b c, comp a b = false → comp b a = false →
    comp b c = false → comp c b = false → comp a c = false ∧ comp c a = false

/-- An implementation of `std::sort(first, last, comp)`.  The standard fixes its effect
only by contract: for a strict weak ordering `comp` the range is rearranged (a
permutation of what it held) so that no element compares less than an earlier one; the
order of equivalent elements is not fixed.  An implementation is any function with that
contract. -/
structure StdSort where
  sort : {α : Type} → (α → α → Bool) → List α → List α
  perm : ∀ {α : Type} (comp : α → α → Bool) (l : List α),
    StrictWeakOrdering comp → List.Perm (sort comp l) l
  sorted : ∀ {α : Type} (comp : α → α → Bool) (l : List α),
    StrictWeakOrdering comp → List.Pairwise (fun a b => comp b a = false) (sort comp l)

/-- One implementation of `std::sort`: straight insertion (the algorithm the library
implementations use on short ranges). -/
def insertion_sort_run {α : Type} (comp : α → α → Bool) (l : List α) : List α :=
  List.insertionSort (fun a b => comp b a = false) l

/-- Straight insertion as an implementation of `std::sort`: it meets the contract. -/
def insertion_sort : StdSort where
  sort := fun comp l => insertion_sort_run comp l
  perm := fun comp l _ => List.perm_insertionSort (fun a b => comp b a = false) l
  sorted := fun {α} comp l h => by
    have asymm : ∀ a b : α, comp a b = true → comp b a = false := by
      intro a b hab
      cases hba : comp b a
      · rfl
      · have haa := h.trans a b a hab hba
        rw [h.irrefl a] at haa
        exact absurd haa (by decide)
    haveI : IsTotal α (fun a b => comp b a = false) := ⟨fun a b => by
      cases hba : comp b a
      · exact Or.inl rfl
      · exact Or.inr (asymm b a hba)⟩
    haveI : IsTrans α (fun a b => comp b a = false) := ⟨fun a b c hba hcb => by
      show comp c a = false
      cases hca : comp c a
      · rfl
      · have hbc : comp b c = false := by
          cases hbc : comp b c
          · rfl
          · have := h.trans b c a hbc hca
            rw [hba] at this
            exact absurd this (by decide)
        have hab : comp a b = false := by
          cases hab : comp a b
          · rfl
          · have := h.trans c a b hca hab
            rw [hcb] at this
            exact absurd this (by decide)
        have := (h.equiv_trans c b a hcb hbc hba hab).1
        rw [hca] at this
        exact absurd this (by decide)⟩
    exact List.sorted_insertionSort (fun a b => comp b a = false) l

/-- A run of the conforming implementation `S` of `std::sort`: it completes and leaves
the rearranged range. -/
def StdSort.call (S : StdSort) {α : Type} (comp : α → α → Bool) (l : List α) :
    Option (List α) :=
  some (S.sort comp l)

/-! ## The `std::sort` of libstdc++

The implementation of `std::sort` that GCC links in (`bits/stl_algo.h` and
`bits/stl_heap.h` of libstdc++ 12): an introsort, that is a quicksort on ranges longer
than 16 elements, with a heap sort once the recursion depth `2 * lg(n)` is used up,
followed by one insertion sort.  The range is the whole storage, iterators are
positions in it, and every read or write through an iterator is unchecked (`none`
outside the storage).  Loops whose end depends on the comparator carry a bound on
their number of iterations, larger than any run inside the storage needs; `none` also
stands for a loop that used its bound up. -/

namespace libstdcxx

variable {α : Type}

/-- The read `*it`. -/
def iter_read (d : List α) (it : Nat) : Option α :=
  d[it]?

/-- The write `*it = x`. -/
def iter_write (d : List α) (it : Nat) (x : α) : Option (List α) :=
  if it < d.length then some (d.set it x) else none

/-- The decrement `--it`; there is no position before the start of the storage. -/
def iter_dec (it : Nat) : Option Nat :=
  match it with
  | 0 => none
  | k + 1 => some k

/-- The comparator applied to two iterators, `__comp(__a, __b)`, that is
`comp(*a, *b)`. -/
def iter_comp_iter (comp : α → α → Bool) (d : List α) (a b : Nat) : Option Bool :=
  (iter_read d a).bind fun x => (iter_read d b).map fun y => comp x y

/-- The call `std::iter_swap(a, b)`. -/
def iter_swap (d : List α) (a b : Nat) : Option (List α) :=
  (iter_read d a).bind fun x => (iter_read d b).bind fun y =>
    (iter_write d a y).bind fun d1 => iter_write d1 b x

/-- The function `__move_median_to_first(result, a, b, c, comp)` (`stl_algo.h:82-101`):
swaps the median of `*a`, `*b`, `*c` to `*result`. -/
def move_median_to_first (comp : α → α → Bool) (d : List α) (result a b c : Nat) :
    Option (List α) :=
  (iter_comp_iter comp d a b).bind fun ab =>
    if ab then
      (iter_comp_iter comp d b c).bind fun bc =>
        if bc then iter_swap d result b
        else (iter_comp_iter comp d a c).bind fun ac =>
          if ac then iter_swap d result c else iter_swap d result a
    else
      (iter_comp_iter comp d a c).bind fun ac =>
        if ac then iter_swap d result a
        else (iter_comp_iter comp d b c).bind fun bc =>
          if bc then iter_swap d result c else iter_swap d result b

/-- The inner loop `while (__comp(__first, __pivot)) ++__first;` of
`__unguarded_partition`; returns the position it stops at. -/
def partition_scan_up (comp : α → α → Bool) (d : List α) (pivot : Nat) :
    Nat → Nat → Option Nat
  | 0, _ => none
  | bound + 1, first =>
    (iter_comp_iter comp d first pivot).bind fun c =>
      if c then partition_scan_up comp d pivot bound (first + 1) else some first

/-- The inner loop `while (__comp(__pivot, __last)) --__last;` of
`__unguarded_partition`; returns the position it stops at. -/
def partition_scan_down (comp : α → α → Bool) (d : List α) (pivot : Nat) :
    Nat → Nat → Option Nat
  | 0, _ => none
  | bound + 1, last =>
    (iter_comp_iter comp d pivot last).bind fun c =>
      if c then (iter_dec last).bind fun last1 => partition_scan_down comp d pivot bound last1
      else some last

/-- The function `__unguarded_partition(first, last, pivot, comp)`
(`stl_algo.h:1861-1877`): `while (true)` scan up, `--last`, scan down, return `first`
when `!(first < last)`, else `iter_swap(first, last); ++first`.  Returns the cut and the
storage. -/
def unguarded_partition (comp : α → α → Bool) (pivot : Nat) :
    Nat → List α → Nat → Nat → Option (Nat × List α)
  | 0, _, _, _ => none
  | bound + 1, d, first, last =>
    (partition_scan_up comp d pivot (d.length + 1) first).bind fun first1 =>
    (iter_dec last).bind fun last0 =>
    (partition_scan_down comp d pivot (d.length + 1) last0).bind fun last1 =>
      if first1 < last1 then
        (iter_swap d first1 last1).bind fun d1 =>
          unguarded_partition comp pivot bound d1 (first1 + 1) last1
      else some (first1, d)

/-- The function `__unguarded_partition_pivot(first, last, comp)`
(`stl_algo.h:1883-1890`): `mid = first + (last - first) / 2`, median of `first + 1`,
`mid`, `last - 1` moved to `first`, then the partition of `[first + 1, last)` around
`*first`. -/
def unguarded_partition_pivot (comp : α → α → Bool) (d : List α) (first last : Nat) :
    Option (Nat × List α) :=
  let mid := first + (last - first) / 2
  (move_median_to_first comp d first (first + 1) mid (last - 1)).bind fun d1 =>
    unguarded_partition comp first (d1.length + 1) d1 (first + 1) last

/-- The function `__push_heap(first, holeIndex, topIndex, value, comp)`
(`stl_heap.h:135-147`). -/
def push_heap (comp : α → α → Bool) (first topIndex : Nat) (value : α) :
    Nat → List α → Nat → Option (List α)
  | 0, _, _ => none
  | bound + 1, d, holeIndex =>
    let parent := (holeIndex - 1) / 2
    if holeIndex > topIndex then
      (iter_read d (first + parent)).bind fun p =>
        if comp p value then
          (iter_write d (first + holeIndex) p).bind fun d1 =>
            push_heap comp first topIndex value bound d1 parent
        else iter_write d (first + holeIndex) value
    else iter_write d (first + holeIndex) value

/-- The loop `while (__secondChild < (__len - 1) / 2)` of `__adjust_heap`
(`stl_heap.h:230-238`); returns the storage, `holeIndex` and `secondChild`. -/
def adjust_heap_sift (comp : α → α → Bool) (first len : Nat) :
    Nat → List α → Nat → Nat → Option (List α × Nat × Nat)
  | 0, _, _, _ => none
  | bound + 1, d, holeIndex, secondChild =>
    if secondChild < (len - 1) / 2 then
      let sc := 2 * (secondChild + 1)
      (iter_comp_iter comp d (first + sc) (first + (sc - 1))).bind fun c =>
        let sc1 := if c then sc - 1 else sc
        (iter_read d (first + sc1)).bind fun x =>
          (iter_write d (first + holeIndex) x).bind fun d1 =>
            adjust_heap_sift comp first len bound d1 sc1 sc1
    else some (d, holeIndex, secondChild)

/-- The function `__adjust_heap(first, holeIndex, len, value, comp)`
(`stl_heap.h:224-249`). -/
def adjust_heap (comp : α → α → Bool) (d : List α) (first holeIndex len : Nat) (value : α) :
    Option (List α) :=
  let topIndex := holeIndex
  (adjust_heap_sift comp first len (len + 1) d holeIndex holeIndex).bind fun st =>
    let d1 := st.1
    let holeIndex1 := st.2.1
    let secondChild := st.2.2
    if len % 2 = 0 ∧ secondChild = (len - 2) / 2 then
      let sc := 2 * (secondChild + 1)
      (iter_read d1 (first + (sc - 1))).bind fun x =>
        (iter_write d1 (first + holeIndex1) x).bind fun d2 =>
          push_heap comp first topIndex value (len + 1) d2 (sc - 1)
    else push_heap comp first topIndex value (len + 1) d1 holeIndex1

/-- The function `__pop_heap(first, last, result, comp)` (`stl_heap.h:254-267`). -/
def pop_heap (comp : α → α → Bool) (d : List α) (first last result : Nat) :
    Option (List α) :=
  (iter_read d result).bind fun value =>
    (iter_read d first).bind fun x =>
      (iter_write d result x).bind fun d1 =>
        adjust_heap comp d1 first 0 (last - first) value

/-- The loop of `__make_heap` (`stl_heap.h:352-361`): `__adjust_heap` at `parent`, then
`if (parent == 0) return; parent--;`. -/
def make_heap_loop (comp : α → α → Bool) (first len : Nat) : Nat → List α → Option (List α)
  | 0, d =>
    (iter_read d (first + 0)).bind fun value => adjust_heap comp d first 0 len value
  | parent + 1, d =>
    (iter_read d (first + (parent + 1))).bind fun value =>
      (adjust_heap comp d first (parent + 1) len value).bind fun d1 =>
        make_heap_loop comp first len parent d1

/-- The function `__make_heap(first, last, comp)` (`stl_heap.h:340-362`). -/
def make_heap (comp : α → α → Bool) (d : List α) (first last : Nat) : Option (List α) :=
  if last - first < 2 then some d
  else
    let len := last - first
    make_heap_loop comp first len ((len - 2) / 2) d

/-- The function `__sort_heap(first, last, comp)` (`stl_heap.h:419-427`):
`while (last - first > 1) { --last; __pop_heap(first, last, last, comp); }`; the first
argument is `last - first`. -/
def sort_heap (comp : α → α → Bool) (first : Nat) : Nat → List α → Option (List α)
  | 0, d => some d
  | n + 1, d =>
    if n + 1 > 1 then
      (pop_heap comp d first (first + n) (first + n)).bind fun d1 => sort_heap comp first n d1
    else some d

/-- The function `__heap_select(first, middle, last, comp)` (`stl_algo.h:1625-1632`). -/
def heap_select (comp : α → α → Bool) (d : List α) (first middle last : Nat) :
    Option (List α) :=
  (make_heap comp d first middle).bind fun d1 =>
    for_loop
      (fun i d2 =>
        (iter_comp_iter comp d2 i first).bind fun c =>
          if c then pop_heap comp d2 first middle i else some d2)
      (last - middle) middle d1

/-- The function `std::__partial_sort(first, middle, last, comp)`
(`stl_algo.h:1895-1902`): `__heap_select` then `__sort_heap(first, middle)`. -/
def sort_by_heap (comp : α → α → Bool) (d : List α) (first middle last : Nat) :
    Option (List α) :=
  (heap_select comp d first middle last).bind fun d1 =>
    sort_heap comp first (middle - first) d1

/-- The constant `_S_threshold` (`stl_algo.h:1838`). -/
def S_threshold : Nat := 16

/-- The function `__introsort_loop(first, last, depth_limit, comp)`
(`stl_algo.h:1908-1926`): while the range is longer than `_S_threshold`, heap sort and
return when `depth_limit` is `0`, else decrement it, partition, recurse into
`[cut, last)` and go on with `last = cut`.  The first argument is `depth_limit`. -/
def introsort_loop (comp : α → α → Bool) : Nat → List α → Nat → Nat → Option (List α)
  | 0, d, first, last =>
    if last - first > S_threshold then sort_by_heap comp d first last last else some d
  | depth_limit + 1, d, first, last =>
    if last - first > S_threshold then
      (unguarded_partition_pivot comp d first last).bind fun r =>
        (introsort_loop comp depth_limit r.2 r.1 last).bind fun d2 =>
          introsort_loop comp depth_limit d2 first r.1
    else some d

/-- The loop of `__unguarded_linear_insert` (`stl_algo.h:1789-1794`):
`while (__comp(__val, __next)) { *__last = *__next; __last = __next; --__next; }`
and then `*__last = __val`. -/
def unguarded_linear_insert_loop (comp : α → α → Bool) (val : α) :
    Nat → List α → Nat → Nat → Option (List α)
  | 0, _, _, _ => none
  | bound + 1, d, last, next =>
    (iter_read d next).bind fun x =>
      if comp val x then
        (iter_write d last x).bind fun d1 =>
          (iter_dec next).bind fun next1 =>
            unguarded_linear_insert_loop comp val bound d1 next next1
      else iter_write d last val

/-- The function `__unguarded_linear_insert(last, comp)` (`stl_algo.h:1782-1796`). -/
def unguarded_linear_insert (comp : α → α → Bool) (d : List α) (last : Nat) :
    Option (List α) :=
  (iter_read d last).bind fun val =>
    (iter_dec last).bind fun next =>
      unguarded_linear_insert_loop comp val (d.length + 1) d last next

/-- The body of the loop of `__insertion_sort` (`stl_algo.h:1809-1819`): when
`*i` compares less than `*first`, the elements of `[first, i)` move one place up and
`*i` goes to `first`; else `__unguarded_linear_insert(i)`. -/
def insertion_sort_body (comp : α → α → Bool) (first : Nat) (i : Nat) (d : List α) :
    Option (List α) :=
  (iter_comp_iter comp d i first).bind fun c =>
    if c then
      (iter_read d i).map fun val =>
        d.take first ++ val :: ((d.drop first).take (i - first)) ++ d.drop (i + 1)
    else unguarded_linear_insert comp d i

/-- The function `__insertion_sort(first, last, comp)` (`stl_algo.h:1802-1820`). -/
def insertion_sort (comp : α → α → Bool) (d : List α) (first last : Nat) :
    Option (List α) :=
  if first = last then some d
  else for_loop (insertion_sort_body comp first) (last - (first + 1)) (first + 1) d

/-- The function `__unguarded_insertion_sort(first, last, comp)`
(`stl_algo.h:1826-1832`). -/
def unguarded_insertion_sort (comp : α → α → Bool) (d : List α) (first last : Nat) :
    Option (List α) :=
  for_loop (fun i d1 => unguarded_linear_insert comp d1 i) (last - first) first d

/-- The function `__final_insertion_sort(first, last, comp)` (`stl_algo.h:1844-1855`). -/
def final_insertion_sort (comp : α → α → Bool) (d : List α) (first last : Nat) :
    Option (List α) :=
  if last - first > S_threshold then
    (insertion_sort comp d first (first + S_threshold)).bind fun d1 =>
      unguarded_insertion_sort comp d1 (first + S_threshold) last
  else insertion_sort comp d first last

/-- The halving loop behind `std::__lg`. -/
def lg_loop : Nat → Nat → Nat
  | 0, _ => 0
  | bound + 1, n => if n ≤ 1 then 0 else lg_loop bound (n / 2) + 1

/-- The function `std::__lg(n)`: the binary logarithm of `n`, rounded down. -/
def lg (n : Nat) : Nat := lg_loop n n

/-- The function `std::__sort(first, last, comp)` (`stl_algo.h:1932-1942`) over the
whole storage, which `std::sort(first, last, comp)` forwards to:
`__introsort_loop(first, last, __lg(last - first) * 2, comp)` and then
`__final_insertion_sort(first, last, comp)`, both skipped on an empty range. -/
def sort (comp : α → α → Bool) (d : List α) : Option (List α) :=
  let first := 0
  let last := d.length
  if first ≠ last then
    (introsort_loop comp (lg (last - first) * 2) d first last).bind fun d1 =>
      final_insertion_sort comp d1 first last
  else some d

end libstdcxx

/-- A comparator on pairs that orders by the first component only: a function object
whose binary call operator returns `a.first < b.first`, the one `std::sort` calls (to
meet the constraint `std::predicate<F, T>` on `Sort(F&&)` the object also has a unary
call operator, which is never called).  Pairs with equal first components are
equivalent under it. -/
def first_less (a b : Int × Int) : Bool :=
  decide (a.1 < b.1)

/-- Seventeen pairs with the same first component, numbered `0` to `16` in their second:
all equivalent under `first_less`, and one more than `_S_threshold`. -/
def tied_pairs : Vec (Int × Int) :=
  ⟨[(1, 0), (1, 1), (1, 2), (1, 3), (1, 4), (1, 5), (1, 6), (1, 7), (1, 8), (1, 9), (1,
    10), (1, 11), (1, 12), (1, 13), (1, 14), (1, 15), (1, 16)]⟩

/-- The arrangement of `tied_pairs` after one `Sort(first_less)` with the `std::sort` of
libstdc++. -/
def tied_pairs_sorted_once : Vec (Int × Int) :=
  ⟨[(1, 8), (1, 16), (1, 15), (1, 14), (1, 13), (1, 12), (1, 11), (1, 10), (1, 9), (1, 0),
    (1, 7), (1, 6), (1, 5), (1, 4), (1, 3), (1, 2), (1, 1)]⟩

/-- The arrangement of `tied_pairs` after two `Sort(first_less)` with the `std::sort` of
libstdc++. -/
def tied_pairs_sorted_twice : Vec (Int × Int) :=
  ⟨[(1, 9), (1, 1), (1, 2), (1, 3), (1, 4), (1, 5), (1, 6), (1, 7), (1, 0), (1, 8), (1,
    10), (1, 11), (1, 12), (1, 13), (1, 14), (1, 15), (1, 16)]⟩

/-- The reason a use of a member of the class template is rejected at compile time, so
that no call of it ever runs. -/
inductive IllFormed where
  | constexpr_initialiser_not_constant
deriving DecidableEq, Repr

/-- The declaration `constexpr auto x{init};` of a local variable in a member function.
The initialiser of a `constexpr` variable has to be a constant expression, and an
expression that evaluates `this` (as every call of a non-static member such as
`cbegin()` does) is not one outside a constant evaluation of the enclosing function:
the declaration is then ill-formed.  `evaluates_this` says whether `init` evaluates
`this`; `init` is the value the initialiser would have at run time. -/
def constexpr_local {σ : Type} (evaluates_this : Bool) (init : σ) : Except IllFormed σ :=
  if evaluates_this then Except.error IllFormed.constexpr_initialiser_not_constant
  else Except.ok init

/-- The call `std::swap(x, y)`: exchanges the two values. -/
def std_swap {σ : Type} (x y : σ) : σ × σ :=
  (y, x)

namespace Vec

variable {α β : Type}

/-- The constructor `Vec()` (`vecor.hpp:50`): the empty sequence. -/
def empty : Vec α := ⟨[]⟩

/-- The constructor `Vec(const Impl_t& v)` (`vecor.hpp:62`): copies the range. -/
def of_impl (d : List α) : Vec α := ⟨d⟩

/-- The constructor `Vec(std::initializer_list<T> init)` (`vecor.hpp:69`). -/
def of_initializer_list (init : List α) : Vec α := ⟨init⟩

/-- The member `size()` (`vecor.hpp:172`). -/
def size (v : Vec α) : Nat := v.data_vec.length

/-- The member `reserve(new_cap)` (`vecor.hpp:176`): the element sequence is untouched. -/
def reserve (v : Vec α) (_new_cap : Nat) : Vec α := v

/-- The member `push_back(value)` (`vecor.hpp:187-192`): appends one element. -/
def push_back (v : Vec α) (value : α) : Vec α := ⟨v.data_vec ++ [value]⟩

/-- The member `emplace_back(args...)` (`vecor.hpp:193-196`) for a single argument of
the element type: appends one element. -/
def emplace_back (v : Vec α) (value : α) : Vec α := ⟨v.data_vec ++ [value]⟩

/-- The member `at(pos)` (`vecor.hpp:96-99`): forwards to `std::vector::at`.  The
second component is the receiver after the call. -/
def at_pos (v : Vec α) (pos : Nat) : Except VecError α × Vec α :=
  (std_vector_at v.data_vec pos, v)

/-- The member `at(pos, fallback)` (`vecor.hpp:100-105`):
`pos < data_vec.size() ? data_vec[pos] : fallback`. -/
def at_fallback (v : Vec α) (pos : Nat) (fallback : α) : Option α :=
  if pos < v.data_vec.length then std_vector_index v.data_vec pos else some fallback

/-- The member `operator[](size_type pos)` (`vecor.hpp:106-109`): unchecked read. -/
def op_index (v : Vec α) (pos : Nat) : Option α :=
  std_vector_index v.data_vec pos

/-- The member `map(fn)` (`vecor.hpp:210-218`): `std::transform` over
`[cbegin(), cend())` writing through a `back_inserter` into a fresh `ret`. -/
def map (v : Vec α) (fn : α → β) : Vec β :=
  let ret : Vec β := (empty : Vec β).reserve v.size
  v.data_vec.foldl (fun r x => r.push_back (fn x)) ret

/-- The member `filter(f)` (`vecor.hpp:220-230`): range-for over `data_vec`,
`emplace_back` of every value the predicate accepts. -/
def filter (v : Vec α) (f : α → Bool) : Vec α :=
  let res : Vec α := (empty : Vec α).reserve v.size
  v.data_vec.foldl (fun r val => if f val then r.emplace_back val else r) res

/-- The body of the loop of `operator[](const Vec<V>& conds)` (`vecor.hpp:124-126`):
`if (conds[i]) { ret.emplace_back(data_vec[i]); }`, both reads unchecked. -/
def op_index_mask_body (v : Vec α) (conds : Vec Bool) (i : Nat) (ret : Vec α) :
    Option (Vec α) :=
  (conds.op_index i).bind fun c =>
    if c then (std_vector_index v.data_vec i).map fun x => ret.emplace_back x
    else some ret

/-- The member `operator[](const Vec<V>& conds)` (`vecor.hpp:111-129`) for a boolean
mask: `n = conds.size()`, then the loop `for (size_type i = 0; i < n; ++i)` over
`ret`.  The size guard is commented out in the source, so `data_vec[i]` is reached
unguarded. -/
def op_index_mask (v : Vec α) (conds : Vec Bool) : Option (Vec α) :=
  let n := conds.size
  let ret : Vec α := (empty : Vec α).reserve n
  for_loop (op_index_mask_body v conds) n 0 ret

/-- The body of the loop of `take(const Vec<size_type>& ids)` (`vecor.hpp:237`):
`res.push_back(data_vec[ids[k]])`, both reads unchecked. -/
def take_ids_body (v : Vec α) (ids : Vec Nat) (k : Nat) (res : Vec α) : Option (Vec α) :=
  (ids.op_index k).bind fun id =>
    (std_vector_index v.data_vec id).map fun x => res.push_back x

/-- The member `take(const Vec<size_type>& ids)` (`vecor.hpp:232-240`):
`out_size = size()`, then the loop `for (size_type k = 0; k < out_size; k++)` over
`res`. -/
def take_ids (v : Vec α) (ids : Vec Nat) : Option (Vec α) :=
  let out_size := v.size
  let res : Vec α := (empty : Vec α).reserve out_size
  for_loop (take_ids_body v ids) out_size 0 res

/-- The member `Min()` (`vecor.hpp:249-251`): `*std::min_element(cbegin(), cend())`. -/
def Min [LT α] [DecidableRel (fun a b : α => a < b)] (v : Vec α) : Option α :=
  std_deref v.data_vec (std_min_element v.data_vec)

/-- The member `IdAndMin()` (`vecor.hpp:253-257`) as the source has it:
`constexpr auto val_it{std::min_element(cbegin(), cend())};`
`constexpr auto idx{std::distance(cbegin(), val_it)};`
`return std::make_pair(idx, *val_it);`.
Both initialisers call `cbegin()` on `*this`, so both declarations are ill-formed and
the member yields no result. -/
def IdAndMin [LT α] [DecidableRel (fun a b : α => a < b)] (v : Vec α) :
    Except IllFormed (Option (Int × α)) :=
  (constexpr_local true (std_min_element v.data_vec)).bind fun val_it =>
    (constexpr_local true (std_distance 0 val_it)).bind fun idx =>
      Except.ok ((std_deref v.data_vec val_it).map fun x => (idx, x))

/-- The member `Max()` (`vecor.hpp:259-261`): `*std::max_element(cbegin(), cend())`. -/
def Max [LT α] [DecidableRel (fun a b : α => a < b)] (v : Vec α) : Option α :=
  std_deref v.data_vec (std_max_element v.data_vec)

/-- The member `IdAndMax()` (`vecor.hpp:263-267`) as the source has it:
`constexpr auto val_it{std::max_element(cbegin(), cend())};`
`constexpr auto idx{std::distance(cbegin(), val_it)};`
`return std::make_pair(idx, *val_it);`.
Both initialisers call `cbegin()` on `*this`, so both declarations are ill-formed and
the member yields no result. -/
def IdAndMax [LT α] [DecidableRel (fun a b : α => a < b)] (v : Vec α) :
    Except IllFormed (Option (Int × α)) :=
  (constexpr_local true (std_max_element v.data_vec)).bind fun val_it =>
    (constexpr_local true (std_distance 0 val_it)).bind fun idx =>
      Except.ok ((std_deref v.data_vec val_it).map fun x => (idx, x))

/-- The member `Sort()` (`vecor.hpp:269-273`): `Vec<T> res(data_vec);
std::sort(std::begin(res), std::end(res)); return res;`.  The first component is the
returned `res`, the second the receiver after the call.  (`Sort` is a reserved word
of Lean; the overload without comparator is named after the `operator<` it sorts by.) -/
def Sort_less [LT α] [DecidableRel (fun a b : α => a < b)] (S : StdSort) (v : Vec α) :
    Vec α × Vec α :=
  let res : Vec α := of_impl v.data_vec
  let res : Vec α := ⟨S.sort std_less res.data_vec⟩
  (res, v)

/-- The move assignment `operator=(Vec<T>&& v)` (`vecor.hpp:77-80`):
`std::swap(data_vec, v.data_vec); return *this;`.  The first component is the receiver
after the assignment, the second the source `v` after it. -/
def op_assign_move (self v : Vec α) : Vec α × Vec α :=
  let swapped := std_swap self.data_vec v.data_vec
  (⟨swapped.1⟩, ⟨swapped.2⟩)

/-- The gather the specification describes for `take(indices)`, written after its words
(`output length == indices.size()`, `output[k] = receiver[indices[k]]`): one output per
entry of `ids`, the receiver's element at that entry. -/
def take_ids_gather_spec (v : Vec α) (ids : Vec Nat) : Option (Vec α) :=
  (ids.data_vec.mapM fun id => v.op_index id).map Vec.mk

/-- The member `max_size()` (`vecor.hpp:173-175`): `return data_vec.size();`. -/
def max_size (v : Vec α) : Nat := v.data_vec.length

/-- The member `front()` (`vecor.hpp:131-132`): `data_vec.front()`, with no defined
behaviour on an empty storage. -/
def front (v : Vec α) : Option α := v.data_vec.head?

/-- The member `back()` (`vecor.hpp:133-134`): `data_vec.back()`, with no defined
behaviour on an empty storage. -/
def back (v : Vec α) : Option α := v.data_vec.getLast?

/-- One step of `std::copy(first, last, std::back_inserter(res))`:
`*d_first++ = *first++`, that is `res.push_back(*first)`; the read is unchecked. -/
def std_copy_back_inserter_body (d : List α) (i : Nat) (res : Vec α) : Option (Vec α) :=
  (std_deref d i).map fun x => res.push_back x

/-- The member `take(size_type n)` (`vecor.hpp:242-247`): `res.reserve(n)`, then
`std::copy(cbegin(), cbegin() + n, std::back_inserter(res))`: the `n` positions from
`cbegin()` on are read and appended. -/
def take_n (v : Vec α) (n : Nat) : Option (Vec α) :=
  let res : Vec α := (empty : Vec α).reserve n
  for_loop (std_copy_back_inserter_body v.data_vec) n 0 res

/-- The member `Sort(F&& c)` (`vecor.hpp:275-280`): `Vec<T> res(data_vec);
std::sort(std::begin(res), std::end(res), std::forward<F>(c)); return res;`.
`std_sort` is the `std::sort` the program is linked with (`none`: the call has no defined
behaviour).  The first component is the returned `res`, the second the receiver after
the call. -/
def Sort_comp (std_sort : (α → α → Bool) → List α → Option (List α)) (v : Vec α)
    (c : α → α → Bool) : Option (Vec α) × Vec α :=
  let res : Vec α := of_impl v.data_vec
  ((std_sort c res.data_vec).map fun sorted => (⟨sorted⟩ : Vec α), v)

/-- The constructor `explicit Vec(size_type vec_size)` (`vecor.hpp:52`): `vec_size`
value-initialised elements; `dflt` is the value-initialised element `T{}`. -/
def of_size (dflt : α) (vec_size : Nat) : Vec α := ⟨List.replicate vec_size dflt⟩

/-- One step of `std::copy(first, last, d_first)` into an existing range:
`*d_first++ = *first++`, the assignment converting the element with `conv`.  Both the
read and the write are unchecked. -/
def std_copy_assign_body (conv : α → β) (d : List α) (i : Nat) (ret : Vec β) :
    Option (Vec β) :=
  (std_deref d i).bind fun x =>
    if i < ret.data_vec.length then some ⟨ret.data_vec.set i (conv x)⟩ else none

/-- The conversion `operator Vec<U>()` (`vecor.hpp:87-93`): `Vec<U> ret(size());
std::copy(begin(), end(), std::begin(ret)); return ret;`, where `conv` is the implicit
conversion of an element to `U` and `dflt` the value-initialised `U`. -/
def op_convert (conv : α → β) (dflt : β) (v : Vec α) : Option (Vec β) :=
  let ret : Vec β := of_size dflt v.size
  for_loop (std_copy_assign_body conv v.data_vec) v.size 0 ret

end Vec

/-! ## The stream operator (`vecor.hpp:286-298`) -/

/-- The number of values of `std::size_t` (64 bits wide). -/
def size_t_modulus : Nat := 2 ^ 64

/-- Subtraction of two `std::size_t` values: unsigned, wrapping around. -/
def size_t_sub (a b : Nat) : Nat :=
  (a + size_t_modulus - b % size_t_modulus) % size_t_modulus

/-- The body of the loop of `operator<<` (`vecor.hpp:292`): `os << v[i] << ", ";`.
The text `os << x` writes for an element `x` is `render x`; the stream is embedded as
the text written to it so far. -/
def op_stream_insert_body {α : Type} (render : α → String) (v : Vec α) (i : Nat)
    (os : String) : Option String :=
  (v.op_index i).map fun x => os ++ render x ++ ", "

/-- The free function `operator<<(std::ostream& os, const Vec<T>& v)`
(`vecor.hpp:286-298`): writes the opening brace and a blank, then, when `size` is not
zero, the elements before the last each followed by `", "` (the loop
`for (std::size_t i = 0; i < size - 1; ++i)`) and the last element `v[size - 1]`,
then a blank and the closing brace. -/
def op_stream_insert {α : Type} (render : α → String) (os : String) (v : Vec α) :
    Option String :=
  let os := os ++ "\x7b "
  let size := v.size
  let os1 : Option String :=
    if size ≠ 0 then
      (for_loop (op_stream_insert_body render v) (size_t_sub size 1) 0 os).bind fun os =>
        (v.op_index (size_t_sub size 1)).map fun x => os ++ render x
    else some os
  os1.map fun os => os ++ " \x7d"

/-- The text `os << x` writes for an `int` `x` under the default stream flags: its
decimal numeral, with a leading minus sign for a negative value. -/
def render_int (x : Int) : String := toString x

/-! ## The example program `src/examples/simple.cpp` -/

/-- The local `veci` of `main` after its twelve `push_back` calls (`simple.cpp:6-19`). -/
def simple_veci : Vec Int :=
  ((((((((((((Vec.empty.push_back 0).push_back 1).push_back 3).push_back 4).push_back 5).push_back
    6).push_back 7).push_back 8).push_back 9).push_back 10).push_back 11).push_back 12)

/-- The local `temp` of `main` (`simple.cpp:21`): `veci.filter` with the lambda
`x % 2 == 0` (C++ remainder truncates towards zero). -/
def simple_temp : Vec Int :=
  simple_veci.filter (fun x => Int.tmod x 2 == 0)

/-! ## Auxiliary lemmas: folds that append -/

theorem foldl_push_back_data {α β : Type} (fn : α → β) (l : List α) (r : Vec β) :
    (l.foldl (fun r x => r.push_back (fn x)) r).data_vec = r.data_vec ++ l.map fn := by
  induction l generalizing r with
  | nil => simp
  | cons a t ih =>
    rw [List.foldl_cons, ih]
    simp [Vec.push_back]

theorem foldl_emplace_back_data {α : Type} (f : α → Bool) (l : List α) (r : Vec α) :
    (l.foldl (fun r val => if f val then r.emplace_back val else r) r).data_vec
      = r.data_vec ++ l.filter f := by
  induction l generalizing r with
  | nil => simp
  | cons a t ih =>
    rw [List.foldl_cons, ih]
    by_cases h : f a = true
    · simp [h, Vec.emplace_back]
    · simp [h]

theorem Vec.ext_data {α : Type} {v w : Vec α} (h : v.data_vec = w.data_vec) : v = w := by
  cases v; cases w; simp_all

theorem Vec.map_data {α β : Type} (v : Vec α) (fn : α → β) :
    (v.map fn).data_vec = v.data_vec.map fn := by
  simp [Vec.map, foldl_push_back_data, Vec.reserve, Vec.empty]

theorem Vec.filter_data {α : Type} (v : Vec α) (f : α → Bool) :
    (v.filter f).data_vec = v.data_vec.filter f := by
  simp [Vec.filter, foldl_emplace_back_data, Vec.reserve, Vec.empty]

/-! ## C1: `filter` -/

/-- C1: `v.filter(p)` is the list filter of `v` by `p`: a subsequence of `v` (original
relative order, multiplicity kept) all of whose elements satisfy `p` and which misses no
element of `v` satisfying `p`; its length is at most `v.size()`; filtering with the
always-true predicate returns `v`; and the example program's filter of
`{0,1,3,4,5,6,7,8,9,10,11,12}` by `x % 2 == 0` is `{0,4,6,8,10,12}`. -/
theorem C1_filter_is_list_filter {α : Type} (v : Vec α) (p : α → Bool) :
    (v.filter p).data_vec = v.data_vec.filter p
    ∧ List.Sublist (v.filter p).data_vec v.data_vec
    ∧ (∀ x, x ∈ (v.filter p).data_vec ↔ x ∈ v.data_vec ∧ p x = true)
    ∧ (v.filter p).size ≤ v.size
    ∧ v.filter (fun _ => true) = v
    ∧ simple_veci.data_vec = [0, 1, 3, 4, 5, 6, 7, 8, 9, 10, 11, 12]
    ∧ simple_temp.data_vec = [0, 4, 6, 8, 10, 12] := by
  refine ⟨Vec.filter_data v p, ?_, ?_, ?_, ?_, by decide, by decide⟩
  · rw [Vec.filter_data]; exact List.filter_sublist v.data_vec
  · intro x; rw [Vec.filter_data]; exact List.mem_filter
  · unfold Vec.size; rw [Vec.filter_data]; exact List.length_filter_le p v.data_vec
  · apply Vec.ext_data; rw [Vec.filter_data]; simp

/-! ## C2, C3: element access -/

theorem std_vector_at_of_lt {α : Type} (d : List α) (pos : Nat) (h : pos < d.length) :
    std_vector_at d pos = Except.ok (d.get ⟨pos, h⟩) := by
  simp [std_vector_at, List.getElem?_eq_getElem h]

theorem std_vector_at_of_ge {α : Type} (d : List α) (pos : Nat) (h : d.length ≤ pos) :
    std_vector_at d pos = Except.error VecError.out_of_range := by
  simp [std_vector_at, List.getElem?_eq_none h]

theorem Vec.at_fallback_isSome {α : Type} (v : Vec α) (pos : Nat) (fallback : α) :
    (v.at_fallback pos fallback).isSome = true := by
  unfold Vec.at_fallback std_vector_index
  by_cases h : pos < v.data_vec.length
  · simp [h]
  · simp [h]

/-- C2: for a position `p < v.size()` the bounds-checked `v.at(p)` succeeds with the
element stored at `p`, the unchecked `v[p]` reads that same element, and `v.at(p, f)`
returns that same element whatever the fallback `f` is. -/
theorem C2_at_in_range {α : Type} (v : Vec α) (p : Nat) (f : α) (h : p < v.size) :
    (v.at_pos p).1 = Except.ok (v.data_vec.get ⟨p, h⟩)
    ∧ v.op_index p = some (v.data_vec.get ⟨p, h⟩)
    ∧ v.at_fallback p f = some (v.data_vec.get ⟨p, h⟩) := by
  have hp : p < v.data_vec.length := h
  refine ⟨std_vector_at_of_lt v.data_vec p hp, ?_, ?_⟩
  · simp [Vec.op_index, std_vector_index, List.getElem?_eq_getElem hp]
  · simp [Vec.at_fallback, std_vector_index, hp, List.getElem?_eq_getElem hp]

/-- C2 at `v = {10, 20, 30}`, `p = 1`, fallback `7`: all three accessors give `20`. -/
theorem C2_at_in_range_witness :
    ((Vec.mk [10, 20, 30] : Vec Int).at_pos 1).1 = Except.ok 20
    ∧ (Vec.mk [10, 20, 30] : Vec Int).op_index 1 = some 20
    ∧ (Vec.mk [10, 20, 30] : Vec Int).at_fallback 1 7 = some 20 :=
  C2_at_in_range (Vec.mk [10, 20, 30] : Vec Int) 1 7 (by decide)

/-- C3: for a position `p ≥ v.size()` the bounds-checked `v.at(p)` fails with the
out-of-range error and leaves `v` as it was, while `v.at(p, f)` returns exactly `f`;
and `at(q, g)` returns a value (never fails, never reads out of range) for every
position `q` and fallback `g`. -/
theorem C3_at_out_of_range {α : Type} (v : Vec α) (p : Nat) (f : α) (h : v.size ≤ p) :
    (v.at_pos p).1 = Except.error VecError.out_of_range
    ∧ (v.at_pos p).2 = v
    ∧ v.at_fallback p f = some f
    ∧ (∀ (q : Nat) (g : α), ∃ x, v.at_fallback q g = some x) := by
  have hp : v.data_vec.length ≤ p := h
  refine ⟨std_vector_at_of_ge v.data_vec p hp, rfl, ?_, ?_⟩
  · simp [Vec.at_fallback, Nat.not_lt.mpr hp]
  · intro q g
    exact Option.isSome_iff_exists.mp (Vec.at_fallback_isSome v q g)

/-- C3 at `v = {10, 20, 30}`, `p = 3` (the first position out of range), fallback `7`. -/
theorem C3_at_out_of_range_witness :
    ((Vec.mk [10, 20, 30] : Vec Int).at_pos 3).1 = Except.error VecError.out_of_range
    ∧ ((Vec.mk [10, 20, 30] : Vec Int).at_pos 3).2 = Vec.mk [10, 20, 30]
    ∧ (Vec.mk [10, 20, 30] : Vec Int).at_fallback 3 7 = some 7
    ∧ (∀ (q : Nat) (g : Int), ∃ x, (Vec.mk [10, 20, 30] : Vec Int).at_fallback q g = some x) :=
  C3_at_out_of_range (Vec.mk [10, 20, 30] : Vec Int) 3 7 (by decide)

/-! ## C4: `map` -/

/-- C4: `v.map(fn)` is the list map of `v` by `fn`: it has the length of `v`, and at
every position `i < v.size()` it holds `fn` applied to the element of `v` at `i` (and,
like `v`, nothing at positions from `v.size()` on). -/
theorem C4_map_is_list_map {α β : Type} (v : Vec α) (fn : α → β) :
    (v.map fn).data_vec = v.data_vec.map fn
    ∧ (v.map fn).size = v.size
    ∧ (∀ i, i < v.size → ∃ x, v.op_index i = some x ∧ (v.map fn).op_index i = some (fn x))
    ∧ (∀ i, (v.map fn).op_index i = (v.op_index i).map fn) := by
  refine ⟨Vec.map_data v fn, ?_, ?_, ?_⟩
  · simp [Vec.size, Vec.map_data]
  · intro i hi
    have hi2 : i < v.data_vec.length := hi
    refine ⟨v.data_vec.get ⟨i, hi2⟩, ?_, ?_⟩
    · simp [Vec.op_index, std_vector_index, List.getElem?_eq_getElem hi2]
    · simp [Vec.op_index, std_vector_index, Vec.map_data, List.getElem?_eq_getElem hi2]
  · intro i
    simp [Vec.op_index, std_vector_index, Vec.map_data]

/-! ## C5: `Sort()` -/

theorem std_less_eq_true_iff {α : Type} [LinearOrder α] (a b : α) :
    std_less a b = true ↔ a < b := by
  simp [std_less]

theorem std_less_eq_false_iff {α : Type} [LinearOrder α] (a b : α) :
    std_less a b = false ↔ b ≤ a := by
  simp [std_less]

/-- On a totally ordered element type `operator<` is a strict weak ordering. -/
theorem std_less_strictWeakOrdering {α : Type} [LinearOrder α] :
    StrictWeakOrdering (std_less : α → α → Bool) where
  irrefl := fun a => (std_less_eq_false_iff a a).mpr le_rfl
  trans := fun a b c hab hbc =>
    (std_less_eq_true_iff a c).mpr
      (lt_trans ((std_less_eq_true_iff a b).mp hab) ((std_less_eq_true_iff b c).mp hbc))
  equiv_trans := fun a b c hab hba hbc hcb => by
    rw [std_less_eq_false_iff] at hab hba hbc hcb
    rw [std_less_eq_false_iff, std_less_eq_false_iff]
    exact ⟨le_trans hbc hab, le_trans hba hcb⟩

theorem Vec.Sort_less_sorted {α : Type} [LinearOrder α] (S : StdSort) (v : Vec α) :
    List.Sorted (fun a b => a ≤ b) (v.Sort_less S).1.data_vec := by
  have h := S.sorted (std_less : α → α → Bool) v.data_vec std_less_strictWeakOrdering
  unfold List.Sorted
  simp only [Vec.Sort_less, Vec.of_impl]
  exact h.imp (fun {a b} hab => (std_less_eq_false_iff b a).mp hab)

theorem Vec.Sort_less_perm {α : Type} [LinearOrder α] (S : StdSort) (v : Vec α) :
    List.Perm (v.Sort_less S).1.data_vec v.data_vec := by
  simp only [Vec.Sort_less, Vec.of_impl]
  exact S.perm (std_less : α → α → Bool) v.data_vec std_less_strictWeakOrdering

/-- C5: over a totally ordered element type, whatever conforming `std::sort` is linked
in, `v.Sort()` is non-decreasing, is a permutation of `v` (every value occurs as often
as in `v`, so the length is that of `v`), is therefore the one sorted rearrangement of
`v`, and the receiver is not modified. -/
theorem C5_Sort_sorted_permutation {α : Type} [LinearOrder α] (S : StdSort) (v : Vec α) :
    List.Sorted (fun a b => a ≤ b) (v.Sort_less S).1.data_vec
    ∧ List.Perm (v.Sort_less S).1.data_vec v.data_vec
    ∧ (∀ x, List.count x (v.Sort_less S).1.data_vec = List.count x v.data_vec)
    ∧ (v.Sort_less S).1.size = v.size
    ∧ (v.Sort_less S).1.data_vec = List.insertionSort (fun a b => a ≤ b) v.data_vec
    ∧ (v.Sort_less S).2 = v := by
  have hs := Vec.Sort_less_sorted S v
  have hp := Vec.Sort_less_perm S v
  refine ⟨hs, hp, fun x => hp.count_eq x, hp.length_eq, ?_, rfl⟩
  exact List.eq_of_perm_of_sorted
    (hp.trans (List.perm_insertionSort (fun a b => a ≤ b) v.data_vec).symm) hs
    (List.sorted_insertionSort (fun a b => a ≤ b) v.data_vec)

/-- C5 at `v = {5, 3, 9, 1, 3}` with straight insertion as the `std::sort`: the result
is `{1, 3, 3, 5, 9}` and the receiver still holds `{5, 3, 9, 1, 3}`. -/
theorem C5_Sort_sorted_permutation_witness :
    ((Vec.mk [5, 3, 9, 1, 3] : Vec Int).Sort_less insertion_sort).1 = Vec.mk [1, 3, 3, 5, 9]
    ∧ ((Vec.mk [5, 3, 9, 1, 3] : Vec Int).Sort_less insertion_sort).2 = Vec.mk [5, 3, 9, 1, 3]
    ∧ List.Sorted (fun a b => a ≤ b)
        ((Vec.mk [5, 3, 9, 1, 3] : Vec Int).Sort_less insertion_sort).1.data_vec :=
  ⟨by decide, by decide,
    (C5_Sort_sorted_permutation insertion_sort (Vec.mk [5, 3, 9, 1, 3] : Vec Int)).1⟩

/-! ## C6, C7: `Min`, `Max`, `IdAndMin`, `IdAndMax` -/

theorem StrictWeakOrdering.neg_trans {α : Type} {comp : α → α → Bool}
    (h : StrictWeakOrdering comp) {a b c : α}
    (hab : comp a b = false) (hbc : comp b c = false) : comp a c = false := by
  cases hac : comp a c
  · rfl
  · have hba : comp b a = false := by
      cases hba : comp b a
      · rfl
      · have := h.trans b a c hba hac
        rw [hbc] at this
        exact absurd this (by decide)
    have hcb : comp c b = false := by
      cases hcb : comp c b
      · rfl
      · have := h.trans a c b hac hcb
        rw [hab] at this
        exact absurd this (by decide)
    have := (h.equiv_trans a b c hab hba hbc hcb).1
    rw [hac] at this
    exact absurd this (by decide)

theorem StrictWeakOrdering.lt_of_lt_of_not_lt {α : Type} {comp : α → α → Bool}
    (h : StrictWeakOrdering comp) {x y b : α}
    (hxb : comp x b = true) (hyb : comp y b = false) : comp x y = true := by
  cases hxy : comp x y
  · have := h.neg_trans hxy hyb
    rw [hxb] at this
    exact absurd this (by decide)
  · rfl

theorem StrictWeakOrdering.flip {α : Type} {comp : α → α → Bool}
    (h : StrictWeakOrdering comp) : StrictWeakOrdering (fun a b => comp b a) where
  irrefl := h.irrefl
  trans := fun a b c hab hbc => h.trans c b a hbc hab
  equiv_trans := fun a b c hab hba hbc hcb =>
    (h.equiv_trans a b c hba hab hcb hbc).symm

/-- The loop invariant of `std::min_element` carried to the loop exit: the iterator it
ends on is inside the range, points to a value no element compares less than, and
compares less than every element before it. -/
theorem min_element_scan_spec {α : Type} {comp : α → α → Bool}
    (h : StrictWeakOrdering comp) (d : List α) :
    ∀ (rest : List α) (first : Nat) (smallest : Nat × α),
      d.drop first = rest →
      smallest.1 < first →
      d[smallest.1]? = some smallest.2 →
      (∀ (j : Nat) (y : α), j < first → d[j]? = some y → comp y smallest.2 = false) →
      (∀ (j : Nat) (y : α), j < smallest.1 → d[j]? = some y → comp smallest.2 y = true) →
      (min_element_scan comp rest first smallest).1 < d.length
      ∧ d[(min_element_scan comp rest first smallest).1]?
          = some (min_element_scan comp rest first smallest).2
      ∧ (∀ (j : Nat) (y : α), d[j]? = some y → comp y (min_element_scan comp rest first smallest).2 = false)
      ∧ (∀ (j : Nat) (y : α), j < (min_element_scan comp rest first smallest).1 → d[j]? = some y →
          comp (min_element_scan comp rest first smallest).2 y = true) := by
  intro rest
  induction rest with
  | nil =>
    intro first smallest hdrop _ hget hle hlt
    have hlen : d.length ≤ first := List.drop_eq_nil_iff.mp hdrop
    simp only [min_element_scan]
    refine ⟨?_, hget, ?_, hlt⟩
    · exact (List.getElem?_eq_some.mp hget).1
    · intro j y hj
      exact hle j y (lt_of_lt_of_le (List.getElem?_eq_some.mp hj).1 hlen) hj
  | cons x rest ih =>
    intro first smallest hdrop hfirst hget hle hlt
    have hx : d[first]? = some x := by
      have := List.head?_drop d first
      rw [hdrop] at this
      simpa using this.symm
    have hrest : d.drop (first + 1) = rest := by
      rw [← List.tail_drop, hdrop]
      rfl
    by_cases hc : comp x smallest.2 = true
    · have hstep : min_element_scan comp (x :: rest) first smallest
          = min_element_scan comp rest (first + 1) (first, x) := by
        simp [min_element_scan, hc]
      rw [hstep]
      apply ih (first + 1) (first, x) hrest (Nat.lt_succ_self first) hx
      · intro j y hj hy
        rcases Nat.lt_succ_iff_lt_or_eq.mp hj with hlt1 | heq
        · have hys := hle j y hlt1 hy
          cases hyx : comp y x
          · rfl
          · have := h.trans y x smallest.2 hyx hc
            rw [hys] at this
            exact absurd this (by decide)
        · subst heq
          rw [hx] at hy
          cases hy
          exact h.irrefl x
      · intro j y hj hy
        exact h.lt_of_lt_of_not_lt hc (hle j y hj hy)
    · have hc2 : comp x smallest.2 = false := by
        cases hcx : comp x smallest.2
        · rfl
        · exact absurd hcx hc
      have hstep : min_element_scan comp (x :: rest) first smallest
          = min_element_scan comp rest (first + 1) smallest := by
        simp [min_element_scan, hc2]
      rw [hstep]
      apply ih (first + 1) smallest hrest (Nat.lt_succ_of_lt hfirst) hget
      · intro j y hj hy
        rcases Nat.lt_succ_iff_lt_or_eq.mp hj with hlt1 | heq
        · exact hle j y hlt1 hy
        · subst heq
          rw [hx] at hy
          cases hy
          exact hc2
      · exact hlt

/-- As an algorithm `std::max_element` with `comp` is `std::min_element` with the
comparator's arguments exchanged. -/
theorem max_element_scan_eq_min {α : Type} (comp : α → α → Bool) (rest : List α) :
    ∀ (first : Nat) (best : Nat × α),
      max_element_scan comp rest first best
        = min_element_scan (fun a b => comp b a) rest first best := by
  induction rest with
  | nil => intro first best; rfl
  | cons x rest ih =>
    intro first best
    simp only [max_element_scan, min_element_scan, ih]

theorem std_max_element_comp_eq_min {α : Type} (comp : α → α → Bool) (d : List α) :
    std_max_element_comp comp d = std_min_element_comp (fun a b => comp b a) d := by
  cases d with
  | nil => rfl
  | cons x rest => simp only [std_max_element_comp, std_min_element_comp, max_element_scan_eq_min]

/-- What `std::min_element(first, last, comp)` returns on a non-empty range. -/
theorem std_min_element_comp_spec {α : Type} {comp : α → α → Bool}
    (h : StrictWeakOrdering comp) (d : List α) (hne : d ≠ []) :
    ∃ m, std_min_element_comp comp d < d.length
      ∧ d[std_min_element_comp comp d]? = some m
      ∧ (∀ (j : Nat) (y : α), d[j]? = some y → comp y m = false)
      ∧ (∀ (j : Nat) (y : α), j < std_min_element_comp comp d → d[j]? = some y → comp m y = true) := by
  cases d with
  | nil => exact absurd rfl hne
  | cons x rest =>
    have hs := min_element_scan_spec h (x :: rest) rest 1 (0, x) rfl Nat.one_pos (by simp)
      (by
        intro j y hj hy
        have hj0 : j = 0 := by omega
        subst hj0
        simp at hy
        subst hy
        exact h.irrefl _)
      (by intro j y hj; exact absurd hj (Nat.not_lt_zero j))
    exact ⟨(min_element_scan comp rest 1 (0, x)).2, hs⟩

/-- The call `std::min_element(cbegin(), cend())` on a non-empty totally ordered
storage: the position of the first least element. -/
theorem std_min_element_spec {α : Type} [LinearOrder α] (d : List α) (hne : d ≠ []) :
    ∃ m, std_min_element d < d.length
      ∧ d[std_min_element d]? = some m
      ∧ m ∈ d
      ∧ (∀ x ∈ d, m ≤ x)
      ∧ (∀ (j : Nat) (y : α), j < std_min_element d → d[j]? = some y → m < y) := by
  obtain ⟨m, h1, h2, h3, h4⟩ := std_min_element_comp_spec std_less_strictWeakOrdering d hne
  refine ⟨m, h1, h2, List.mem_iff_getElem?.mpr ⟨_, h2⟩, ?_, ?_⟩
  · intro x hx
    obtain ⟨j, hj⟩ := List.mem_iff_getElem?.mp hx
    exact (std_less_eq_false_iff x m).mp (h3 j x hj)
  · intro j y hj hy
    exact (std_less_eq_true_iff m y).mp (h4 j y hj hy)

/-- The call `std::max_element(cbegin(), cend())` on a non-empty totally ordered
storage: the position of the first greatest element. -/
theorem std_max_element_spec {α : Type} [LinearOrder α] (d : List α) (hne : d ≠ []) :
    ∃ m, std_max_element d < d.length
      ∧ d[std_max_element d]? = some m
      ∧ m ∈ d
      ∧ (∀ x ∈ d, x ≤ m)
      ∧ (∀ (j : Nat) (y : α), j < std_max_element d → d[j]? = some y → y < m) := by
  have hflip : StrictWeakOrdering (fun a b : α => std_less b a) :=
    std_less_strictWeakOrdering.flip
  obtain ⟨m, h1, h2, h3, h4⟩ := std_min_element_comp_spec hflip d hne
  have he : std_max_element d = std_min_element_comp (fun a b : α => std_less b a) d :=
    std_max_element_comp_eq_min std_less d
  rw [← he] at h1 h2 h4
  refine ⟨m, h1, h2, List.mem_iff_getElem?.mpr ⟨_, h2⟩, ?_, ?_⟩
  · intro x hx
    obtain ⟨j, hj⟩ := List.mem_iff_getElem?.mp hx
    exact (std_less_eq_false_iff m x).mp (h3 j x hj)
  · intro j y hj hy
    exact (std_less_eq_true_iff y m).mp (h4 j y hj hy)

theorem Vec.data_ne_nil_of_size_pos {α : Type} (v : Vec α) (h : 0 < v.size) :
    v.data_vec ≠ [] := by
  intro hnil
  simp [Vec.size, hnil] at h

/-- C6: on a non-empty `Vec` over a totally ordered element type `Min()` returns an
element of `v` that is `≤` every element of `v`, and `Max()` returns an element of `v`
that is `≥` every element of `v`. -/
theorem C6_Min_Max_extremal {α : Type} [LinearOrder α] (v : Vec α) (hne : 0 < v.size) :
    (∃ m, v.Min = some m ∧ m ∈ v.data_vec ∧ ∀ x ∈ v.data_vec, m ≤ x)
    ∧ (∃ m, v.Max = some m ∧ m ∈ v.data_vec ∧ ∀ x ∈ v.data_vec, x ≤ m) := by
  have hd := Vec.data_ne_nil_of_size_pos v hne
  obtain ⟨m, _, h2, h3, h4, _⟩ := std_min_element_spec v.data_vec hd
  obtain ⟨n, _, k2, k3, k4, _⟩ := std_max_element_spec v.data_vec hd
  exact ⟨⟨m, h2, h3, h4⟩, ⟨n, k2, k3, k4⟩⟩

/-- C6 at `v = {5, 3, 9, 1}`: `Min() == 1` and `Max() == 9`, and both are extremal
elements of `v`. -/
theorem C6_Min_Max_extremal_witness :
    (Vec.mk [5, 3, 9, 1] : Vec Int).Min = some 1
    ∧ (Vec.mk [5, 3, 9, 1] : Vec Int).Max = some 9
    ∧ ((∃ m, (Vec.mk [5, 3, 9, 1] : Vec Int).Min = some m ∧ m ∈ ([5, 3, 9, 1] : List Int)
          ∧ ∀ x ∈ ([5, 3, 9, 1] : List Int), m ≤ x)
      ∧ (∃ m, (Vec.mk [5, 3, 9, 1] : Vec Int).Max = some m ∧ m ∈ ([5, 3, 9, 1] : List Int)
          ∧ ∀ x ∈ ([5, 3, 9, 1] : List Int), x ≤ m)) :=
  ⟨by decide, by decide, C6_Min_Max_extremal (Vec.mk [5, 3, 9, 1] : Vec Int) (by decide)⟩

/-- C7: the code of `IdAndMin()` and `IdAndMax()` yields no pair at any input: the two
locals are declared `constexpr` with initialisers that evaluate `this`, so the members
are ill-formed.  At `v = {5, 3, 9, 1}` the initialisers would have the values the claim
names (position `3` and value `1` for the minimum, position `2` and value `9` for the
maximum), but the calls do not return `(3, 1)` and `(2, 9)`. -/
theorem C7_IdAndMin_IdAndMax_ill_formed {α : Type} [LT α]
    [DecidableRel (fun a b : α => a < b)] (v : Vec α) :
    v.IdAndMin = Except.error IllFormed.constexpr_initialiser_not_constant
    ∧ v.IdAndMax = Except.error IllFormed.constexpr_initialiser_not_constant
    ∧ (Vec.mk [5, 3, 9, 1] : Vec Int).IdAndMin ≠ Except.ok (some (3, 1))
    ∧ (Vec.mk [5, 3, 9, 1] : Vec Int).IdAndMax ≠ Except.ok (some (2, 9))
    ∧ std_distance 0 (std_min_element ([5, 3, 9, 1] : List Int)) = 3
    ∧ std_deref ([5, 3, 9, 1] : List Int) (std_min_element ([5, 3, 9, 1] : List Int)) = some 1
    ∧ std_distance 0 (std_max_element ([5, 3, 9, 1] : List Int)) = 2
    ∧ std_deref ([5, 3, 9, 1] : List Int) (std_max_element ([5, 3, 9, 1] : List Int))
        = some 9 := by
  refine ⟨rfl, rfl, ?_, ?_, by decide, by decide, by decide, by decide⟩
  · intro h
    cases h
  · intro h
    cases h

/-! ## C8: boolean-mask indexing -/

/-- The elements of `d` paired with a true entry of `m`, in order: what selecting from
`d` by the mask `m` means. -/
theorem mask_select_cons {α : Type} (x : α) (c : Bool) (d : List α) (m : List Bool) :
    (((x :: d).zip (c :: m)).filter (fun q => q.2)).map (fun q => q.1)
      = (if c then [x] else []) ++ ((d.zip m).filter (fun q => q.2)).map (fun q => q.1) := by
  cases c <;> simp [List.zip_cons_cons]

/-- The loop of the mask indexing, started at position `i` with `n` mask entries to go,
on a mask no longer than the storage: it never reads out of range and appends the
storage elements at the remaining true mask positions. -/
theorem for_loop_op_index_mask {α : Type} (v : Vec α) (conds : Vec Bool) :
    ∀ (n i : Nat) (ret : Vec α),
      i + n = conds.data_vec.length → conds.data_vec.length ≤ v.data_vec.length →
      for_loop (Vec.op_index_mask_body v conds) n i ret
        = some ⟨ret.data_vec ++
            (((v.data_vec.drop i).zip (conds.data_vec.drop i)).filter (fun q => q.2)).map
              (fun q => q.1)⟩ := by
  intro n
  induction n with
  | zero =>
    intro i ret hi _
    have hdrop : conds.data_vec.drop i = [] := List.drop_eq_nil_iff.mpr (by omega)
    simp [for_loop, hdrop]
  | succ n ih =>
    intro i ret hi hle
    have him : i < conds.data_vec.length := by omega
    have hid : i < v.data_vec.length := by omega
    have hstep : Vec.op_index_mask_body v conds i ret
        = some (if conds.data_vec[i] then ret.emplace_back v.data_vec[i] else ret) := by
      simp only [Vec.op_index_mask_body, Vec.op_index, std_vector_index,
        List.getElem?_eq_getElem him, List.getElem?_eq_getElem hid, Option.some_bind,
        Option.map_some']
      cases conds.data_vec[i] <;> simp
    rw [for_loop, hstep]
    simp only []
    rw [ih (i + 1) _ (by omega) hle, List.drop_eq_getElem_cons him,
      List.drop_eq_getElem_cons hid, mask_select_cons]
    cases conds.data_vec[i] <;> simp [Vec.emplace_back]

theorem Vec.op_index_mask_of_le {α : Type} (v : Vec α) (conds : Vec Bool)
    (hle : conds.size ≤ v.size) :
    v.op_index_mask conds
      = some ⟨((v.data_vec.zip conds.data_vec).filter (fun q => q.2)).map (fun q => q.1)⟩ := by
  unfold Vec.op_index_mask
  simp only [Vec.size, Vec.reserve, Vec.empty]
  rw [for_loop_op_index_mask v conds conds.data_vec.length 0 ⟨[]⟩ (by omega) hle]
  simp

/-- The same loop described position by position: it appends, for the positions
`i, i+1, ..., i+n-1` in this order, the storage element at each position whose mask
entry is true. -/
theorem for_loop_op_index_mask_positions {α : Type} (v : Vec α) (conds : Vec Bool) :
    ∀ (n i : Nat) (ret : Vec α),
      i + n ≤ conds.data_vec.length → conds.data_vec.length ≤ v.data_vec.length →
      for_loop (Vec.op_index_mask_body v conds) n i ret
        = some ⟨ret.data_vec ++ (List.range' i n).filterMap
            (fun j => if conds.op_index j = some true then v.op_index j else none)⟩ := by
  intro n
  induction n with
  | zero =>
    intro i ret _ _
    simp [for_loop]
  | succ n ih =>
    intro i ret hi hle
    have him : i < conds.data_vec.length := by omega
    have hid : i < v.data_vec.length := by omega
    have hstep : Vec.op_index_mask_body v conds i ret
        = some (if conds.data_vec[i] then ret.emplace_back v.data_vec[i] else ret) := by
      simp only [Vec.op_index_mask_body, Vec.op_index, std_vector_index,
        List.getElem?_eq_getElem him, List.getElem?_eq_getElem hid, Option.some_bind,
        Option.map_some']
      cases conds.data_vec[i] <;> simp
    rw [for_loop, hstep]
    simp only []
    rw [ih (i + 1) _ (by omega) hle, List.range'_succ]
    cases hc : conds.data_vec[i] <;>
      simp [Vec.emplace_back, Vec.op_index, std_vector_index, List.getElem?_eq_getElem him,
        List.getElem?_eq_getElem hid, hc]

/-- C8: for a mask `m` with `m.size() == v.size()` the mask indexing `v[m]` returns
(without any out-of-range read) exactly the elements `v[i]` whose mask entry `m[i]` is
true, in increasing order of `i` and nothing else: it is the list of the `v[i]`, for
`i = 0, 1, ..., v.size()-1` in this order, at which `m[i]` is true; equivalently, pair
the elements with their mask entries position by position, keep the pairs with a true
entry, and project the elements. -/
theorem C8_mask_index_equal_size {α : Type} (v : Vec α) (m : Vec Bool)
    (h : m.size = v.size) :
    v.op_index_mask m
      = some ⟨(List.range v.size).filterMap
          (fun i => if m.op_index i = some true then v.op_index i else none)⟩
    ∧ v.op_index_mask m
      = some ⟨((v.data_vec.zip m.data_vec).filter (fun q => q.2)).map (fun q => q.1)⟩ := by
  refine ⟨?_, Vec.op_index_mask_of_le v m (Nat.le_of_eq h)⟩
  have hm : m.data_vec.length = v.data_vec.length := h
  unfold Vec.op_index_mask
  simp only [Vec.size, Vec.reserve, Vec.empty]
  rw [for_loop_op_index_mask_positions v m m.data_vec.length 0 ⟨[]⟩ (by omega) (by omega)]
  simp [List.range_eq_range', hm]

/-- C8 at `v = {10, 20, 30}`, `m = {true, false, true}`: `v[m]` is `{10, 30}`. -/
theorem C8_mask_index_equal_size_witness :
    (Vec.mk [10, 20, 30] : Vec Int).op_index_mask (Vec.mk [true, false, true])
      = some (Vec.mk [10, 30])
    ∧ (Vec.mk [10, 20, 30] : Vec Int).op_index_mask (Vec.mk [true, false, true])
      = some (Vec.mk [10, 30]) :=
  C8_mask_index_equal_size (Vec.mk [10, 20, 30] : Vec Int) (Vec.mk [true, false, true])
    (by decide)

/-! ## C9: `take(ids)` -/

/-- C9: the code of `take(ids)` at `v = {10, 20}`, `ids = {0, 1, 0}` (every entry in
range): the loop runs `v.size() = 2` times and returns `{10, 20}`, of length 2, where
the gather of the specification is `{10, 20, 10}`, of length `ids.size() = 3`; and at
`ids = {1}` the loop reads `ids[1]` out of range where the gather is `{20}`. -/
theorem C9_take_ids_sized_by_receiver :
    (Vec.mk [10, 20] : Vec Int).take_ids (Vec.mk [0, 1, 0]) = some (Vec.mk [10, 20])
    ∧ (Vec.mk [10, 20] : Vec Int).take_ids_gather_spec (Vec.mk [0, 1, 0])
        = some (Vec.mk [10, 20, 10])
    ∧ (Vec.mk [10, 20] : Vec Int).take_ids (Vec.mk [0, 1, 0])
        ≠ (Vec.mk [10, 20] : Vec Int).take_ids_gather_spec (Vec.mk [0, 1, 0])
    ∧ (Vec.mk [10, 20] : Vec Int).take_ids (Vec.mk [1]) = none
    ∧ (Vec.mk [10, 20] : Vec Int).take_ids_gather_spec (Vec.mk [1]) = some (Vec.mk [20]) := by
  decide

/-! ## C10: move assignment -/

/-- C10 as stated fails: with `a = {1}` and `b = {2, 3}`, after `a = std::move(b)` the
source `b` holds `{1}` and has size 1, not 0. -/
theorem C10_move_assign_source_not_empty :
    ¬ (((Vec.mk [1] : Vec Int).op_assign_move (Vec.mk [2, 3])).1 = Vec.mk [2, 3]
        ∧ ((Vec.mk [1] : Vec Int).op_assign_move (Vec.mk [2, 3])).2.size = 0) := by
  decide

/-- C10 amended: after `a = std::move(b)`, `a` holds the element sequence `b` had before
the assignment and `b` holds the element sequence `a` had before it (the two are
exchanged); so `b` is empty exactly when `a` was empty beforehand. -/
theorem C10_move_assign_exchanges {α : Type} (a b : Vec α) :
    (a.op_assign_move b).1 = b
    ∧ (a.op_assign_move b).2 = a
    ∧ ((a.op_assign_move b).2.size = 0 ↔ a.size = 0) := by
  refine ⟨rfl, rfl, Iff.rfl⟩

/-! ## C11: `take(n)` -/

/-- The loop of `std::copy` through a back inserter, started at position `k` with `n`
elements to go inside the storage: it appends those `n` elements in order. -/
theorem for_loop_std_copy_back_inserter {α : Type} (d : List α) :
    ∀ (n k : Nat) (res : Vec α), k + n ≤ d.length →
      for_loop (Vec.std_copy_back_inserter_body d) n k res
        = some ⟨res.data_vec ++ (d.drop k).take n⟩ := by
  intro n
  induction n with
  | zero =>
    intro k res _
    simp [for_loop]
  | succ n ih =>
    intro k res hk
    have hkd : k < d.length := by omega
    have hstep : Vec.std_copy_back_inserter_body d k res = some (res.push_back d[k]) := by
      simp [Vec.std_copy_back_inserter_body, std_deref, List.getElem?_eq_getElem hkd]
    rw [for_loop, hstep]
    simp only []
    rw [ih (k + 1) _ (by omega), List.drop_eq_getElem_cons hkd]
    simp only [Vec.push_back, List.append_assoc, List.singleton_append, List.take_succ_cons]

theorem Vec.take_n_of_le {α : Type} (v : Vec α) (n : Nat) (h : n ≤ v.size) :
    v.take_n n = some ⟨v.data_vec.take n⟩ := by
  unfold Vec.take_n
  simp only [Vec.reserve, Vec.empty]
  rw [for_loop_std_copy_back_inserter v.data_vec n 0 ⟨[]⟩ (by simpa [Vec.size] using h)]
  simp

/-- C11: for `n ≤ v.size()`, `v.take(n)` is the length-`n` initial segment of `v`: it
has length `n` and at every position `i < n` it holds the element of `v` at `i`; so
`take(v.size())` is `v` and `take(0)` is empty. -/
theorem C11_take_n_initial_segment {α : Type} (v : Vec α) (n : Nat) (h : n ≤ v.size) :
    (∃ r, v.take_n n = some r
        ∧ r.data_vec = v.data_vec.take n
        ∧ r.size = n
        ∧ (∀ i, i < n → r.op_index i = v.op_index i)
        ∧ List.IsPrefix r.data_vec v.data_vec)
    ∧ v.take_n v.size = some v
    ∧ v.take_n 0 = some Vec.empty := by
  have hn : n ≤ v.data_vec.length := h
  refine ⟨⟨⟨v.data_vec.take n⟩, Vec.take_n_of_le v n h, rfl, ?_, ?_, ?_⟩, ?_, ?_⟩
  · simp [Vec.size, List.length_take, hn]
  · intro i hi
    simp [Vec.op_index, std_vector_index, List.getElem?_take, hi]
  · exact List.take_prefix n v.data_vec
  · rw [Vec.take_n_of_le v v.size le_rfl]
    simp [Vec.size]
  · rw [Vec.take_n_of_le v 0 (Nat.zero_le _)]
    simp [Vec.empty]

/-- C11 at `v = {0, 1, 3, 4, 5}`, `n = 3`: `take(3)` is `{0, 1, 3}`. -/
theorem C11_take_n_initial_segment_witness :
    (Vec.mk [0, 1, 3, 4, 5] : Vec Int).take_n 3 = some (Vec.mk [0, 1, 3])
    ∧ ((∃ r, (Vec.mk [0, 1, 3, 4, 5] : Vec Int).take_n 3 = some r
          ∧ r.data_vec = ([0, 1, 3, 4, 5] : List Int).take 3
          ∧ r.size = 3
          ∧ (∀ i, i < 3 → r.op_index i = (Vec.mk [0, 1, 3, 4, 5] : Vec Int).op_index i)
          ∧ List.IsPrefix r.data_vec ([0, 1, 3, 4, 5] : List Int))
      ∧ (Vec.mk [0, 1, 3, 4, 5] : Vec Int).take_n (Vec.mk [0, 1, 3, 4, 5] : Vec Int).size
          = some (Vec.mk [0, 1, 3, 4, 5])
      ∧ (Vec.mk [0, 1, 3, 4, 5] : Vec Int).take_n 0 = some Vec.empty) :=
  ⟨by decide, C11_take_n_initial_segment (Vec.mk [0, 1, 3, 4, 5] : Vec Int) 3 (by decide)⟩

/-! ## C12: the stream operator -/

theorem intercalate_go_append (sep : String) :
    ∀ (l : List String) (acc a : String),
      String.intercalate.go (acc ++ a) sep l = acc ++ String.intercalate.go a sep l := by
  intro l
  induction l with
  | nil => intro acc a; rfl
  | cons b t ih =>
    intro acc a
    have h1 : acc ++ a ++ sep ++ b = acc ++ (a ++ sep ++ b) := by
      simp only [String.append_assoc]
    simp only [String.intercalate.go]
    rw [h1, ih]

/-- Joining a list of at least two texts: the first, the separator, the rest joined. -/
theorem intercalate_cons_cons (sep a b : String) (t : List String) :
    String.intercalate sep (a :: b :: t) = a ++ sep ++ String.intercalate sep (b :: t) := by
  simp only [String.intercalate, String.intercalate.go]
  rw [intercalate_go_append]

theorem size_t_sub_one {n : Nat} (h0 : n ≠ 0) (hn : n < size_t_modulus) :
    size_t_sub n 1 = n - 1 := by
  unfold size_t_sub
  unfold size_t_modulus at *
  omega

/-- The loop of `operator<<` followed by the write of the last element, started at
position `k` with `n` separated elements to go and the last element at `k + n`. -/
theorem for_loop_op_stream_insert {α : Type} (render : α → String) (v : Vec α) :
    ∀ (n k : Nat) (os : String), k + n + 1 = v.data_vec.length →
      ((for_loop (op_stream_insert_body render v) n k os).bind fun os1 =>
          (v.op_index (k + n)).map fun x => os1 ++ render x)
        = some (os ++ String.intercalate ", " ((v.data_vec.drop k).map render)) := by
  intro n
  induction n with
  | zero =>
    intro k os hk
    have hkd : k < v.data_vec.length := by omega
    have hnil : v.data_vec.drop (k + 1) = [] := List.drop_eq_nil_iff.mpr (by omega)
    simp [for_loop, Vec.op_index, std_vector_index, List.getElem?_eq_getElem hkd,
      List.drop_eq_getElem_cons hkd, hnil, String.intercalate, String.intercalate.go]
  | succ n ih =>
    intro k os hk
    have hkd : k < v.data_vec.length := by omega
    have hkd1 : k + 1 < v.data_vec.length := by omega
    have hstep : op_stream_insert_body render v k os
        = some (os ++ render v.data_vec[k] ++ ", ") := by
      simp [op_stream_insert_body, Vec.op_index, std_vector_index,
        List.getElem?_eq_getElem hkd]
    have hidx : k + (n + 1) = k + 1 + n := by omega
    rw [for_loop, hstep]
    simp only []
    rw [hidx, ih (k + 1) _ (by omega), List.drop_eq_getElem_cons hkd,
      List.drop_eq_getElem_cons hkd1]
    simp only [List.map_cons]
    rw [intercalate_cons_cons]
    simp only [String.append_assoc]

/-- C12: for a `Vec` whose size fits `std::size_t`, the stream operator appends to the
stream the opening brace and a blank, the renderings of the elements in order joined by
`", "`, a blank and the closing brace, and reads no element out of range; for the empty
`Vec` the text is the two braces around two blanks (the guard `if (size)` keeps the
wrapped-around bound `size - 1` from being used: the loop is not entered); for a
one-element `Vec` it is the single rendering between the padded braces, without
separator. -/
theorem C12_stream_operator_text {α : Type} (render : α → String) (os : String) (v : Vec α)
    (hsize : v.size < size_t_modulus) :
    op_stream_insert render os v
      = some (os ++ "\x7b " ++ String.intercalate ", " (v.data_vec.map render) ++ " \x7d")
    ∧ op_stream_insert render os (Vec.empty : Vec α) = some (os ++ "\x7b  \x7d")
    ∧ (∀ x : α, op_stream_insert render os (Vec.mk [x])
        = some (os ++ "\x7b " ++ render x ++ " \x7d")) := by
  have hgen : ∀ w : Vec α, w.size < size_t_modulus →
      op_stream_insert render os w
        = some (os ++ "\x7b " ++ String.intercalate ", " (w.data_vec.map render) ++ " \x7d") := by
    intro w hw
    unfold op_stream_insert
    by_cases h0 : w.size = 0
    · have hnil : w.data_vec = [] := List.length_eq_zero.mp h0
      simp [h0, hnil, String.intercalate]
    · have hlen : 0 + (w.size - 1) + 1 = w.data_vec.length := by
        have : w.size = w.data_vec.length := rfl
        omega
      have hloop := for_loop_op_stream_insert render w (w.size - 1) 0 (os ++ "\x7b ") hlen
      simp only [Nat.zero_add, List.drop_zero] at hloop
      simp only [h0, ne_eq, not_false_eq_true, if_true, size_t_sub_one h0 hw, hloop,
        Option.map_some']
  refine ⟨hgen v hsize, ?_, ?_⟩
  · have h := hgen (Vec.empty : Vec α) (by simp [Vec.size, Vec.empty, size_t_modulus])
    rw [h]
    simp [Vec.empty, String.intercalate, String.append_assoc]
  · intro x
    have h := hgen (Vec.mk [x]) (by simp [Vec.size, size_t_modulus])
    rw [h]
    simp [String.intercalate, String.intercalate.go]

/-- C12 at `Vec<int>` values: the empty `Vec` is written as the braces around two
blanks, `{7}` as `{ 7 }`, `{7, 8, -9}` as `{ 7, 8, -9 }`. -/
theorem C12_stream_operator_text_witness :
    op_stream_insert render_int "" (Vec.mk []) = some "\x7b  \x7d"
    ∧ op_stream_insert render_int "" (Vec.mk [7]) = some "\x7b 7 \x7d"
    ∧ op_stream_insert render_int "" (Vec.mk [7, 8, -9]) = some "\x7b 7, 8, -9 \x7d"
    ∧ (op_stream_insert render_int "" (Vec.mk [7, 8, -9])
        = some ("" ++ "\x7b " ++ String.intercalate ", " (([7, 8, -9] : List Int).map render_int)
            ++ " \x7d")
      ∧ op_stream_insert render_int "" (Vec.empty : Vec Int) = some ("" ++ "\x7b  \x7d")
      ∧ (∀ x : Int, op_stream_insert render_int "" (Vec.mk [x])
          = some ("" ++ "\x7b " ++ render_int x ++ " \x7d"))) :=
  ⟨by decide, by decide, by decide,
    C12_stream_operator_text render_int "" (Vec.mk [7, 8, -9]) (by decide)⟩

/-! ## C13: `Sort(cmp)` applied twice -/

theorem first_less_strictWeakOrdering : StrictWeakOrdering first_less where
  irrefl := fun a => by simp [first_less]
  trans := fun a b c hab hbc => by
    simp only [first_less, decide_eq_true_eq] at *
    exact lt_trans hab hbc
  equiv_trans := fun a b c hab hba hbc hcb => by
    simp only [first_less, decide_eq_false_iff_not, not_lt] at *
    exact ⟨le_trans hbc hab, le_trans hba hcb⟩

/-- Two arrangements of the same elements, both in the order of a comparator under
which no two distinct elements of the range are equivalent, are the same sequence. -/
theorem eq_of_perm_of_sorted_of_no_equiv {α : Type} {c : α → α → Bool} {l₁ l₂ : List α}
    (hp : List.Perm l₁ l₂)
    (h₁ : List.Pairwise (fun a b => c b a = false) l₁)
    (h₂ : List.Pairwise (fun a b => c b a = false) l₂)
    (hne : ∀ a ∈ l₁, ∀ b ∈ l₁, c a b = false → c b a = false → a = b) :
    l₁ = l₂ := by
  haveI : IsAntisymm α (fun a b => c b a = false ∧ (c a b = false → a = b)) :=
    ⟨fun a b hab hba => hab.2 hba.1⟩
  have k₁ : List.Pairwise (fun a b => c b a = false ∧ (c a b = false → a = b)) l₁ :=
    h₁.imp_of_mem (fun {a b} ha hb hab => ⟨hab, fun hba => hne a ha b hb hba hab⟩)
  have k₂ : List.Pairwise (fun a b => c b a = false ∧ (c a b = false → a = b)) l₂ :=
    h₂.imp_of_mem (fun {a b} ha hb hab =>
      ⟨hab, fun hba => hne a (hp.symm.subset ha) b (hp.symm.subset hb) hba hab⟩)
  exact List.eq_of_perm_of_sorted hp k₁ k₂

/-- C13 as stated fails on the `std::sort` of libstdc++: `first_less` is a valid
comparator (a strict weak ordering) under which the seventeen elements of `tied_pairs`
are equivalent; `s = v.Sort(cmp)` for `v = tied_pairs` is `tied_pairs_sorted_once` (the
quicksort step moves the middle element to the front and reverses the rest), and
`s.Sort(cmp)` is `tied_pairs_sorted_twice`, which differs from `s`. -/
theorem C13_Sort_comp_twice_differs :
    StrictWeakOrdering first_less
    ∧ (tied_pairs.Sort_comp libstdcxx.sort first_less).1 = some tied_pairs_sorted_once
    ∧ (tied_pairs_sorted_once.Sort_comp libstdcxx.sort first_less).1
        = some tied_pairs_sorted_twice
    ∧ tied_pairs_sorted_twice ≠ tied_pairs_sorted_once
    ∧ ((tied_pairs.Sort_comp libstdcxx.sort first_less).1.bind
          fun s => (s.Sort_comp libstdcxx.sort first_less).1)
        ≠ (tied_pairs.Sort_comp libstdcxx.sort first_less).1 :=
  ⟨first_less_strictWeakOrdering, by decide, by decide, by decide, by decide⟩

/-- C13 amended: for a comparator `cmp` that is a strict weak ordering and treats no two
distinct elements of `v` as equivalent, whatever conforming `std::sort` is linked in,
`s = v.Sort(cmp)` is returned, is in the order of `cmp`, and `s.Sort(cmp)` is element
for element identical to `s`. -/
theorem C13_Sort_comp_idempotent_without_ties {α : Type} (S : StdSort) (v : Vec α)
    (cmp : α → α → Bool) (hcmp : StrictWeakOrdering cmp)
    (hties : ∀ a ∈ v.data_vec, ∀ b ∈ v.data_vec, cmp a b = false → cmp b a = false → a = b) :
    ∃ s, (v.Sort_comp S.call cmp).1 = some s
      ∧ List.Pairwise (fun a b => cmp b a = false) s.data_vec
      ∧ List.Perm s.data_vec v.data_vec
      ∧ (s.Sort_comp S.call cmp).1 = some s := by
  have hs : List.Pairwise (fun a b => cmp b a = false) (S.sort cmp v.data_vec) :=
    S.sorted cmp v.data_vec hcmp
  have hp : List.Perm (S.sort cmp v.data_vec) v.data_vec := S.perm cmp v.data_vec hcmp
  refine ⟨⟨S.sort cmp v.data_vec⟩, rfl, hs, hp, ?_⟩
  have heq : S.sort cmp (S.sort cmp v.data_vec) = S.sort cmp v.data_vec := by
    apply eq_of_perm_of_sorted_of_no_equiv
      (S.perm cmp (S.sort cmp v.data_vec) hcmp)
      (S.sorted cmp (S.sort cmp v.data_vec) hcmp) hs
    intro a ha b hb hab hba
    have ha1 := (S.perm cmp (S.sort cmp v.data_vec) hcmp).subset ha
    have hb1 := (S.perm cmp (S.sort cmp v.data_vec) hcmp).subset hb
    exact hties a (hp.subset ha1) b (hp.subset hb1) hab hba
  simp only [Vec.Sort_comp, Vec.of_impl, StdSort.call, Option.map_some', heq]

/-- C13 amended, at `v = {(2, 0), (1, 0), (3, 1)}` (no two first components equal) with
`first_less`: with straight insertion as the `std::sort`, and also with the `std::sort`
of libstdc++, `s` is `{(1, 0), (2, 0), (3, 1)}` and sorting `s` again returns `s`. -/
theorem C13_Sort_comp_idempotent_without_ties_witness :
    ((Vec.mk [(2, 0), (1, 0), (3, 1)] : Vec (Int × Int)).Sort_comp insertion_sort.call
        first_less).1 = some (Vec.mk [(1, 0), (2, 0), (3, 1)])
    ∧ ((Vec.mk [(2, 0), (1, 0), (3, 1)] : Vec (Int × Int)).Sort_comp libstdcxx.sort
        first_less).1 = some (Vec.mk [(1, 0), (2, 0), (3, 1)])
    ∧ ((Vec.mk [(1, 0), (2, 0), (3, 1)] : Vec (Int × Int)).Sort_comp libstdcxx.sort
        first_less).1 = some (Vec.mk [(1, 0), (2, 0), (3, 1)])
    ∧ (∃ s, ((Vec.mk [(2, 0), (1, 0), (3, 1)] : Vec (Int × Int)).Sort_comp
          insertion_sort.call first_less).1 = some s
        ∧ List.Pairwise (fun a b => first_less b a = false) s.data_vec
        ∧ List.Perm s.data_vec ([(2, 0), (1, 0), (3, 1)] : List (Int × Int))
        ∧ (s.Sort_comp insertion_sort.call first_less).1 = some s) :=
  ⟨by decide, by decide, by decide,
    C13_Sort_comp_idempotent_without_ties insertion_sort
      (Vec.mk [(2, 0), (1, 0), (3, 1)] : Vec (Int × Int)) first_less
      first_less_strictWeakOrdering (by decide)⟩

/-! ## C14: literal-list construction followed by `map(identity)` -/

/-- C14: a `Vec` constructed from the literal list `x` and mapped with the identity
function has the element sequence `x`: same length, same elements, same order. -/
theorem C14_initializer_list_map_identity {α : Type} (x : List α) :
    ((Vec.of_initializer_list x).map (fun a => a)).data_vec = x
    ∧ ((Vec.of_initializer_list x).map (fun a => a)).size = x.length
    ∧ (Vec.of_initializer_list x).map (fun a => a) = Vec.of_initializer_list x
    ∧ ((Vec.of_initializer_list ([1, 2, 2, 3] : List Int)).map (fun a => a)).data_vec
        = [1, 2, 2, 3] := by
  have h : ((Vec.of_initializer_list x).map (fun a => a)).data_vec = x := by
    rw [Vec.map_data]
    simp [Vec.of_initializer_list]
  refine ⟨h, ?_, ?_, by decide⟩
  · simp [Vec.size, h]
  · apply Vec.ext_data
    rw [h]
    rfl

/-! ## C15: conversion to `Vec<U>` -/

/-- The loop of `std::copy` into an existing range of the same length, started at
position `k`: the part `pre` already written stays, the rest is overwritten with the
converted elements. -/
theorem for_loop_std_copy_assign {α β : Type} (conv : α → β) (d : List α) :
    ∀ (n k : Nat) (pre suf : List β), pre.length = k → suf.length = n → k + n = d.length →
      for_loop (Vec.std_copy_assign_body conv d) n k ⟨pre ++ suf⟩
        = some ⟨pre ++ (d.drop k).map conv⟩ := by
  intro n
  induction n with
  | zero =>
    intro k pre suf _ hsuf hk
    have hnil : suf = [] := List.length_eq_zero.mp hsuf
    have hdrop : d.drop k = [] := List.drop_eq_nil_iff.mpr (by omega)
    simp [for_loop, hnil, hdrop]
  | succ n ih =>
    intro k pre suf hpre hsuf hk
    have hkd : k < d.length := by omega
    cases suf with
    | nil => simp at hsuf
    | cons s suf1 =>
      have hlen : suf1.length = n := by simpa using hsuf
      have hset : (pre ++ s :: suf1).set k (conv d[k]) = (pre ++ [conv d[k]]) ++ suf1 := by
        rw [List.set_append_right k (conv d[k]) (by omega)]
        have h0 : k - pre.length = 0 := by omega
        rw [h0]
        simp
      have hstep : Vec.std_copy_assign_body conv d k ⟨pre ++ s :: suf1⟩
          = some ⟨(pre ++ [conv d[k]]) ++ suf1⟩ := by
        have hin : k < (pre ++ s :: suf1).length := by simp; omega
        simp only [Vec.std_copy_assign_body, std_deref, List.getElem?_eq_getElem hkd,
          Option.some_bind, hin, if_true, hset]
      rw [for_loop, hstep]
      simp only []
      rw [ih (k + 1) (pre ++ [conv d[k]]) suf1 (by simp [hpre]) hlen (by omega),
        List.drop_eq_getElem_cons hkd]
      simp only [List.map_cons, List.append_assoc, List.singleton_append]

theorem Vec.op_convert_data {α β : Type} (conv : α → β) (dflt : β) (v : Vec α) :
    v.op_convert conv dflt = some ⟨v.data_vec.map conv⟩ := by
  unfold Vec.op_convert Vec.of_size
  have h := for_loop_std_copy_assign conv v.data_vec v.size 0 [] (List.replicate v.size dflt)
    rfl (by simp) (by simp [Vec.size])
  simpa using h

/-- C15: converting `v` to `Vec<U>` with the element conversion `conv` yields (without
any out-of-range read or write) a `Vec` of the length of `v` whose element at every
position `i` is `conv(v[i])`, in the order of `v`; the value-initialised elements the
result starts from are all overwritten. -/
theorem C15_convert_elementwise {α β : Type} (conv : α → β) (dflt : β) (v : Vec α) :
    ∃ r, v.op_convert conv dflt = some r
      ∧ r.data_vec = v.data_vec.map conv
      ∧ r.size = v.size
      ∧ (∀ i, r.op_index i = (v.op_index i).map conv)
      ∧ (∀ i, i < v.size → ∃ x, v.op_index i = some x ∧ r.op_index i = some (conv x)) := by
  refine ⟨⟨v.data_vec.map conv⟩, Vec.op_convert_data conv dflt v, rfl, ?_, ?_, ?_⟩
  · simp [Vec.size]
  · intro i
    simp [Vec.op_index, std_vector_index]
  · intro i hi
    have hi2 : i < v.data_vec.length := hi
    refine ⟨v.data_vec.get ⟨i, hi2⟩, ?_, ?_⟩
    · simp [Vec.op_index, std_vector_index, List.getElem?_eq_getElem hi2]
    · simp [Vec.op_index, std_vector_index, List.getElem?_eq_getElem hi2]

/-- C15 at `Vec<int>{3, -1, 4}` converted with `conv x = 2 * x + 1` into a result that
starts from zeros: the result is `{7, -1, 9}`. -/
theorem C15_convert_elementwise_witness :
    (Vec.mk [3, -1, 4] : Vec Int).op_convert (fun x => 2 * x + 1) 0 = some (Vec.mk [7, -1, 9])
    ∧ (∃ r, (Vec.mk [3, -1, 4] : Vec Int).op_convert (fun x => 2 * x + 1) 0 = some r
        ∧ r.data_vec = ([3, -1, 4] : List Int).map (fun x => 2 * x + 1)
        ∧ r.size = (Vec.mk [3, -1, 4] : Vec Int).size
        ∧ (∀ i, r.op_index i
            = ((Vec.mk [3, -1, 4] : Vec Int).op_index i).map (fun x => 2 * x + 1))
        ∧ (∀ i, i < (Vec.mk [3, -1, 4] : Vec Int).size →
            ∃ x, (Vec.mk [3, -1, 4] : Vec Int).op_index i = some x
              ∧ r.op_index i = some (2 * x + 1))) :=
  ⟨by decide, C15_convert_elementwise (fun x => 2 * x + 1) 0 (Vec.mk [3, -1, 4] : Vec Int)⟩

/-! ## C16: `take(ids)` as the code has it -/

/-- The loop of `take(ids)`, started at position `k` with `n` entries of `ids` to go,
all present and all valid positions of the receiver: it appends the receiver's elements
at those entries, one for each entry, in order. -/
theorem for_loop_take_ids {α : Type} (v : Vec α) (ids : Vec Nat) :
    ∀ (n k : Nat) (res : Vec α), k + n ≤ ids.data_vec.length →
      (∀ id ∈ (ids.data_vec.drop k).take n, id < v.data_vec.length) →
      for_loop (Vec.take_ids_body v ids) n k res
          = some ⟨res.data_vec
              ++ ((ids.data_vec.drop k).take n).filterMap (fun id => v.op_index id)⟩
      ∧ List.Forall₂ (fun id x => v.op_index id = some x) ((ids.data_vec.drop k).take n)
          (((ids.data_vec.drop k).take n).filterMap (fun id => v.op_index id)) := by
  intro n
  induction n with
  | zero =>
    intro k res _ _
    simp [for_loop]
  | succ n ih =>
    intro k res hk hvalid
    have hki : k < ids.data_vec.length := by omega
    have hdrop : (ids.data_vec.drop k).take (n + 1)
        = ids.data_vec[k] :: (ids.data_vec.drop (k + 1)).take n := by
      rw [List.drop_eq_getElem_cons hki, List.take_succ_cons]
    rw [hdrop] at hvalid ⊢
    have hid : ids.data_vec[k] < v.data_vec.length := hvalid _ (List.mem_cons_self _ _)
    have hread : v.op_index ids.data_vec[k] = some v.data_vec[ids.data_vec[k]] := by
      simp [Vec.op_index, std_vector_index, List.getElem?_eq_getElem hid]
    have hstep : Vec.take_ids_body v ids k res
        = some (res.push_back v.data_vec[ids.data_vec[k]]) := by
      simp [Vec.take_ids_body, Vec.op_index, std_vector_index,
        List.getElem?_eq_getElem hki, List.getElem?_eq_getElem hid]
    obtain ⟨h1, h2⟩ := ih (k + 1) (res.push_back v.data_vec[ids.data_vec[k]]) (by omega)
      (fun id hmem => hvalid id (List.mem_cons_of_mem _ hmem))
    constructor
    · rw [for_loop, hstep]
      simp only []
      rw [h1, List.filterMap_cons_some hread]
      simp [Vec.push_back]
    · rw [List.filterMap_cons_some hread]
      exact List.Forall₂.cons hread h2

/-- The loop of `take(ids)` runs into an out-of-range read when it is to go past the end
of `ids`: at the latest the read `ids[k]` at `k = ids.size()`. -/
theorem for_loop_take_ids_past_end {α : Type} (v : Vec α) (ids : Vec Nat) :
    ∀ (n k : Nat) (res : Vec α), k ≤ ids.data_vec.length → ids.data_vec.length < k + n →
      for_loop (Vec.take_ids_body v ids) n k res = none := by
  intro n
  induction n with
  | zero =>
    intro k res hk1 hk2
    omega
  | succ n ih =>
    intro k res hk1 hk2
    rw [for_loop]
    cases hbody : Vec.take_ids_body v ids k res with
    | none => rfl
    | some res1 =>
      simp only []
      by_cases hlt : k < ids.data_vec.length
      · exact ih (k + 1) res1 (by omega) (by omega)
      · have hnone : ids.op_index k = none := by
          simp [Vec.op_index, std_vector_index, List.getElem?_eq_none (Nat.not_lt.mp hlt)]
        simp [Vec.take_ids_body, hnone] at hbody

theorem Vec.take_ids_body_at_end {α : Type} (v : Vec α) (ids : Vec Nat) (res : Vec α) :
    Vec.take_ids_body v ids ids.size res = none := by
  simp [Vec.take_ids_body, Vec.op_index, std_vector_index, Vec.size]

/-- C16: for `ids` with `ids.size() ≥ v.size()` whose first `v.size()` entries are valid
positions of `v`, `v.take(ids)` returns a `Vec` of length `v.size()` (the receiver's
length) whose `k`-th element, for every `k < v.size()`, is `v[ids[k]]`; the entries of
`ids` from position `v.size()` on do not matter (any `ids2` with the same first
`v.size()` entries gives the same result); and for any `ids3` shorter than `v` the
operation does not return: its loop is to run to `v.size()`, and the read of `ids3` at
position `ids3.size()` is out of range. -/
theorem C16_take_ids_receiver_sized {α : Type} (v : Vec α) (ids : Vec Nat)
    (hsize : v.size ≤ ids.size)
    (hvalid : ∀ id ∈ ids.data_vec.take v.size, id < v.size) :
    (∃ r, v.take_ids ids = some r
        ∧ r.size = v.size
        ∧ List.Forall₂ (fun id x => v.op_index id = some x) (ids.data_vec.take v.size)
            r.data_vec
        ∧ (∀ k, k < v.size → ∃ id x, ids.op_index k = some id ∧ v.op_index id = some x
            ∧ r.op_index k = some x))
    ∧ (∀ ids2 : Vec Nat, ids2.data_vec.take v.size = ids.data_vec.take v.size →
        v.take_ids ids2 = v.take_ids ids)
    ∧ (∀ ids3 : Vec Nat, ids3.size < v.size →
        v.take_ids ids3 = none
        ∧ ∀ res : Vec α, Vec.take_ids_body v ids3 ids3.size res = none) := by
  have key : ∀ w : Vec Nat, v.size ≤ w.size →
      (∀ id ∈ w.data_vec.take v.size, id < v.size) →
      v.take_ids w = some ⟨(w.data_vec.take v.size).filterMap (fun id => v.op_index id)⟩
      ∧ List.Forall₂ (fun id x => v.op_index id = some x) (w.data_vec.take v.size)
          ((w.data_vec.take v.size).filterMap (fun id => v.op_index id)) := by
    intro w hw hval
    have h := for_loop_take_ids v w v.size 0 ⟨[]⟩ (by simpa [Vec.size] using hw)
      (by simpa [Vec.size] using hval)
    simp only [List.drop_zero, List.nil_append] at h
    exact ⟨by simpa [Vec.take_ids, Vec.reserve, Vec.empty] using h.1, h.2⟩
  obtain ⟨h1, h2⟩ := key ids hsize hvalid
  have hlen : ((ids.data_vec.take v.size).filterMap (fun id => v.op_index id)).length
      = v.size := by
    rw [← h2.length_eq, List.length_take]
    exact Nat.min_eq_left hsize
  refine ⟨⟨_, h1, hlen, h2, ?_⟩, ?_, ?_⟩
  · intro k hk
    have hk1 : k < (ids.data_vec.take v.size).length := by
      rw [h2.length_eq, hlen]; exact hk
    have hk2 : k < ((ids.data_vec.take v.size).filterMap (fun id => v.op_index id)).length := by
      rw [hlen]; exact hk
    have hk3 : k < ids.data_vec.length := lt_of_lt_of_le hk hsize
    refine ⟨(ids.data_vec.take v.size).get ⟨k, hk1⟩, _, ?_, h2.get hk1 hk2, ?_⟩
    · simp [Vec.op_index, std_vector_index, List.getElem?_eq_getElem hk3]
    · simp [Vec.op_index, std_vector_index, List.getElem?_eq_getElem hk2]
  · intro ids2 hsame
    have hsz2 : v.size ≤ ids2.size := by
      have hl := congrArg List.length hsame
      simp only [List.length_take] at hl
      have hs : v.size ≤ ids.data_vec.length := hsize
      show v.size ≤ ids2.data_vec.length
      omega
    rw [(key ids2 hsz2 (by rw [hsame]; exact hvalid)).1, h1, hsame]
  · intro ids3 hshort
    refine ⟨?_, fun res => Vec.take_ids_body_at_end v ids3 res⟩
    unfold Vec.take_ids
    exact for_loop_take_ids_past_end v ids3 v.size 0 _ (Nat.zero_le _)
      (by simpa [Vec.size] using hshort)

/-- C16 at `v = {10, 20}`: with `ids = {1, 0, 7, 7}` the result is `{20, 10}` (length 2,
the entries `7` are never read as positions), and with the shorter `ids3 = {1}` the loop
reads `ids3[1]` out of range. -/
theorem C16_take_ids_receiver_sized_witness :
    (Vec.mk [10, 20] : Vec Int).take_ids (Vec.mk [1, 0, 7, 7]) = some (Vec.mk [20, 10])
    ∧ (Vec.mk [10, 20] : Vec Int).take_ids (Vec.mk [1]) = none
    ∧ ((∃ r, (Vec.mk [10, 20] : Vec Int).take_ids (Vec.mk [1, 0, 7, 7]) = some r
          ∧ r.size = (Vec.mk [10, 20] : Vec Int).size
          ∧ List.Forall₂ (fun id x => (Vec.mk [10, 20] : Vec Int).op_index id = some x)
              (([1, 0, 7, 7] : List Nat).take (Vec.mk [10, 20] : Vec Int).size) r.data_vec
          ∧ (∀ k, k < (Vec.mk [10, 20] : Vec Int).size →
              ∃ id x, (Vec.mk [1, 0, 7, 7] : Vec Nat).op_index k = some id
                ∧ (Vec.mk [10, 20] : Vec Int).op_index id = some x ∧ r.op_index k = some x))
      ∧ (∀ ids2 : Vec Nat,
          ids2.data_vec.take (Vec.mk [10, 20] : Vec Int).size
              = ([1, 0, 7, 7] : List Nat).take (Vec.mk [10, 20] : Vec Int).size →
          (Vec.mk [10, 20] : Vec Int).take_ids ids2
            = (Vec.mk [10, 20] : Vec Int).take_ids (Vec.mk [1, 0, 7, 7]))
      ∧ (∀ ids3 : Vec Nat, ids3.size < (Vec.mk [10, 20] : Vec Int).size →
          (Vec.mk [10, 20] : Vec Int).take_ids ids3 = none
          ∧ ∀ res : Vec Int,
              Vec.take_ids_body (Vec.mk [10, 20] : Vec Int) ids3 ids3.size res = none)) :=
  ⟨by decide, by decide,
    C16_take_ids_receiver_sized (Vec.mk [10, 20] : Vec Int) (Vec.mk [1, 0, 7, 7])
      (by decide) (by decide)⟩

/-! ## C17: mask indexing without length check -/

/-- The loop of the mask indexing runs into an out-of-range read of the receiver when a
mask entry still to be visited is true at a position past the receiver's end. -/
theorem for_loop_op_index_mask_out_of_range {α : Type} (v : Vec α) (conds : Vec Bool) :
    ∀ (n i : Nat) (ret : Vec α), i + n = conds.data_vec.length →
      ∀ j, i ≤ j → v.data_vec.length ≤ j → conds.op_index j = some true →
      for_loop (Vec.op_index_mask_body v conds) n i ret = none := by
  intro n
  induction n with
  | zero =>
    intro i ret hi j hij _ hj
    have hjlt : j < conds.data_vec.length := by
      simp only [Vec.op_index, std_vector_index] at hj
      exact (List.getElem?_eq_some.mp hj).1
    omega
  | succ n ih =>
    intro i ret hi j hij hvj hj
    rw [for_loop]
    cases hbody : Vec.op_index_mask_body v conds i ret with
    | none => rfl
    | some ret1 =>
      simp only []
      by_cases hji : j = i
      · subst hji
        have hnone : std_vector_index v.data_vec j = none := by
          simp [std_vector_index, List.getElem?_eq_none hvj]
        simp [Vec.op_index_mask_body, hj, hnone] at hbody
      · exact ih (i + 1) ret1 (by omega) j (by omega) hvj hj

/-- C17: the mask indexing has no length check.  For a mask `m` with
`m.size() ≤ v.size()` it returns, without reading `v` out of range, the elements `v[i]`
with `i < m.size()` and `m[i]` true, in increasing order of `i` (the elements of `v`
from position `m.size()` on are dropped); and for any mask `m2` with a true entry at a
position `i ≥ v.size()` the operation runs into an out-of-range read of `v`. -/
theorem C17_mask_index_no_length_check {α : Type} (v : Vec α) (m : Vec Bool)
    (hle : m.size ≤ v.size) :
    v.op_index_mask m
      = some ⟨(List.range m.size).filterMap
          (fun i => if m.op_index i = some true then v.op_index i else none)⟩
    ∧ v.op_index_mask m
      = some ⟨((v.data_vec.zip m.data_vec).filter (fun q => q.2)).map (fun q => q.1)⟩
    ∧ v.op_index_mask m = (⟨v.data_vec.take m.size⟩ : Vec α).op_index_mask m
    ∧ (∀ (m2 : Vec Bool) (i : Nat), v.size ≤ i → m2.op_index i = some true →
        v.op_index_mask m2 = none) := by
  have hm : m.data_vec.length ≤ v.data_vec.length := hle
  have hzip := Vec.op_index_mask_of_le v m hle
  refine ⟨?_, hzip, ?_, ?_⟩
  · unfold Vec.op_index_mask
    simp only [Vec.size, Vec.reserve, Vec.empty]
    rw [for_loop_op_index_mask_positions v m m.data_vec.length 0 ⟨[]⟩ (by omega) hm]
    simp [List.range_eq_range']
  · have htake : m.size ≤ (⟨v.data_vec.take m.size⟩ : Vec α).size := by
      simp only [Vec.size, List.length_take]
      exact le_min le_rfl hm
    rw [hzip, Vec.op_index_mask_of_le _ m htake]
    have hz : (v.data_vec.take m.size).zip m.data_vec = v.data_vec.zip m.data_vec := by
      have h1 : m.data_vec.take m.size = m.data_vec := by simp [Vec.size]
      have h2 := List.zip_eq_zip_take_min v.data_vec m.data_vec
      rw [Nat.min_eq_right hm] at h2
      rw [h2]
      simp only [Vec.size] at h1 ⊢
      rw [h1]
    rw [hz]
  · intro m2 i hi htrue
    unfold Vec.op_index_mask
    exact for_loop_op_index_mask_out_of_range v m2 m2.size 0 _ (by simp [Vec.size]) i
      (Nat.zero_le _) hi htrue

/-- C17 at `v = {10, 20, 30}`: the shorter mask `{false, true}` gives `{20}` (the
element `30` is dropped); the longer mask `{true, false, true, true}` reads `v[3]` out
of range, while the longer mask `{true, false, true, false}` does not. -/
theorem C17_mask_index_no_length_check_witness :
    (Vec.mk [10, 20, 30] : Vec Int).op_index_mask (Vec.mk [false, true]) = some (Vec.mk [20])
    ∧ (Vec.mk [10, 20, 30] : Vec Int).op_index_mask (Vec.mk [true, false, true, true]) = none
    ∧ (Vec.mk [10, 20, 30] : Vec Int).op_index_mask (Vec.mk [true, false, true, false])
        = some (Vec.mk [10, 30])
    ∧ ((Vec.mk [10, 20, 30] : Vec Int).op_index_mask (Vec.mk [false, true])
          = some ⟨(List.range (Vec.mk [false, true] : Vec Bool).size).filterMap
              (fun i => if (Vec.mk [false, true] : Vec Bool).op_index i = some true
                then (Vec.mk [10, 20, 30] : Vec Int).op_index i else none)⟩
      ∧ (Vec.mk [10, 20, 30] : Vec Int).op_index_mask (Vec.mk [false, true])
          = some ⟨((([10, 20, 30] : List Int).zip [false, true]).filter (fun q => q.2)).map
              (fun q => q.1)⟩
      ∧ (Vec.mk [10, 20, 30] : Vec Int).op_index_mask (Vec.mk [false, true])
          = (⟨([10, 20, 30] : List Int).take (Vec.mk [false, true] : Vec Bool).size⟩
              : Vec Int).op_index_mask (Vec.mk [false, true])
      ∧ (∀ (m2 : Vec Bool) (i : Nat), (Vec.mk [10, 20, 30] : Vec Int).size ≤ i →
          m2.op_index i = some true →
          (Vec.mk [10, 20, 30] : Vec Int).op_index_mask m2 = none)) :=
  ⟨by decide, by decide, by decide,
    C17_mask_index_no_length_check (Vec.mk [10, 20, 30] : Vec Int) (Vec.mk [false, true])
      (by decide)⟩

/-! ## C18: mask indexing by a mapped predicate is `filter` -/

theorem mask_select_map_eq_filter {α : Type} (p : α → Bool) (d : List α) :
    ((d.zip (d.map p)).filter (fun q => q.2)).map (fun q => q.1) = d.filter p := by
  induction d with
  | nil => rfl
  | cons x t ih =>
    rw [List.map_cons, mask_select_cons, ih]
    cases hp : p x <;> simp [hp]

/-- C18: indexing `v` by the mask `v.map(p)` returns (without any out-of-range read)
the same `Vec` as `v.filter(p)`. -/
theorem C18_mask_of_map_is_filter {α : Type} (v : Vec α) (p : α → Bool) :
    v.op_index_mask (v.map p) = some (v.filter p)
    ∧ simple_veci.op_index_mask (simple_veci.map (fun x => Int.tmod x 2 == 0))
        = some simple_temp := by
  have hgen : ∀ (w : Vec α), w.op_index_mask (w.map p) = some (w.filter p) := by
    intro w
    have hle : (w.map p).size ≤ w.size := by
      simp [Vec.size, Vec.map_data]
    rw [Vec.op_index_mask_of_le w (w.map p) hle, Vec.map_data, mask_select_map_eq_filter]
    congr 1
    apply Vec.ext_data
    rw [Vec.filter_data]
  exact ⟨hgen v, by decide⟩

/-! ## C19: `Min`/`Max` against the ends of `Sort()` -/

/-- The first element of a non-decreasing arrangement of `d` is the least element of
`d`, the last one the greatest. -/
theorem sorted_perm_ends {α : Type} [LinearOrder α] {d s : List α} {lo hi : α}
    (hs : List.Sorted (fun a b => a ≤ b) s) (hp : List.Perm s d)
    (hlo : lo ∈ d) (hlo_le : ∀ x ∈ d, lo ≤ x) (hhi : hi ∈ d) (hhi_le : ∀ x ∈ d, x ≤ hi) :
    s.head? = some lo ∧ s.getLast? = some hi := by
  have hne : s ≠ [] := by
    intro hnil
    rw [hnil] at hp
    rw [← hp.nil_eq] at hlo
    exact absurd hlo (List.not_mem_nil lo)
  constructor
  · rw [List.head?_eq_head hne]
    have hmem : s.head hne ∈ d := hp.subset (List.head_mem hne)
    have h1 : lo ≤ s.head hne := hlo_le _ hmem
    have h2 : s.head hne ≤ lo := by
      have hlos : lo ∈ s := hp.symm.subset hlo
      cases s with
      | nil => exact absurd rfl hne
      | cons a t =>
        rcases List.mem_cons.mp hlos with heq | hin
        · simp [heq]
        · exact List.rel_of_sorted_cons hs lo hin
    rw [le_antisymm h1 h2]
  · rw [List.getLast?_eq_getLast s hne]
    have hmem : s.getLast hne ∈ d := hp.subset (List.getLast_mem hne)
    have h1 : s.getLast hne ≤ hi := hhi_le _ hmem
    have h2 : hi ≤ s.getLast hne := by
      have hhis : hi ∈ s := hp.symm.subset hhi
      have hsplit : s.dropLast ++ [s.getLast hne] = s := List.dropLast_append_getLast hne
      rw [← hsplit] at hhis hs
      rcases List.mem_append.mp hhis with hin | hin
      · exact (List.pairwise_append.mp hs).2.2 hi hin _ (List.mem_singleton_self _)
      · rw [List.mem_singleton.mp hin]
    rw [le_antisymm h1 h2]

/-- C19: on a non-empty `Vec` over a totally ordered element type, whatever conforming
`std::sort` is linked in, `Min()` is the first element of `Sort()` and `Max()` is its
last element. -/
theorem C19_Min_Max_are_ends_of_Sort {α : Type} [LinearOrder α] (S : StdSort) (v : Vec α)
    (hne : 0 < v.size) :
    (∃ m, v.Min = some m ∧ (v.Sort_less S).1.front = some m
        ∧ (v.Sort_less S).1.op_index 0 = some m)
    ∧ (∃ m, v.Max = some m ∧ (v.Sort_less S).1.back = some m
        ∧ (v.Sort_less S).1.op_index ((v.Sort_less S).1.size - 1) = some m) := by
  have hd := Vec.data_ne_nil_of_size_pos v hne
  obtain ⟨lo, _, h2, h3, h4, _⟩ := std_min_element_spec v.data_vec hd
  obtain ⟨hi, _, k2, k3, k4, _⟩ := std_max_element_spec v.data_vec hd
  obtain ⟨e1, e2⟩ := sorted_perm_ends (Vec.Sort_less_sorted S v) (Vec.Sort_less_perm S v)
    h3 h4 k3 k4
  refine ⟨⟨lo, h2, e1, ?_⟩, ⟨hi, k2, e2, ?_⟩⟩
  · simp only [Vec.op_index, std_vector_index]
    rw [← List.head?_eq_getElem?]
    exact e1
  · simp only [Vec.op_index, std_vector_index, Vec.size]
    rw [← List.getLast?_eq_getElem?]
    exact e2

/-- C19 at `v = {5, 3, 9, 1}` with straight insertion as the `std::sort`: `Min()` and
the first element of `Sort()` are `1`, `Max()` and the last element are `9`. -/
theorem C19_Min_Max_are_ends_of_Sort_witness :
    (Vec.mk [5, 3, 9, 1] : Vec Int).Min = some 1
    ∧ ((Vec.mk [5, 3, 9, 1] : Vec Int).Sort_less insertion_sort).1.front = some 1
    ∧ (Vec.mk [5, 3, 9, 1] : Vec Int).Max = some 9
    ∧ ((Vec.mk [5, 3, 9, 1] : Vec Int).Sort_less insertion_sort).1.back = some 9
    ∧ ((∃ m, (Vec.mk [5, 3, 9, 1] : Vec Int).Min = some m
          ∧ ((Vec.mk [5, 3, 9, 1] : Vec Int).Sort_less insertion_sort).1.front = some m
          ∧ ((Vec.mk [5, 3, 9, 1] : Vec Int).Sort_less insertion_sort).1.op_index 0 = some m)
      ∧ (∃ m, (Vec.mk [5, 3, 9, 1] : Vec Int).Max = some m
          ∧ ((Vec.mk [5, 3, 9, 1] : Vec Int).Sort_less insertion_sort).1.back = some m
          ∧ ((Vec.mk [5, 3, 9, 1] : Vec Int).Sort_less insertion_sort).1.op_index
              (((Vec.mk [5, 3, 9, 1] : Vec Int).Sort_less insertion_sort).1.size - 1)
            = some m)) :=
  ⟨by decide, by decide, by decide, by decide,
    C19_Min_Max_are_ends_of_Sort insertion_sort (Vec.mk [5, 3, 9, 1] : Vec Int) (by decide)⟩

/-! ## C20: `max_size()` -/

/-- C20: `max_size()` returns the current element count: it equals `size()` for every
`Vec`, is `0` for the empty `Vec`, and grows by one with each `push_back`. -/
theorem C20_max_size_is_size {α : Type} (v : Vec α) (x : α) :
    v.max_size = v.size
    ∧ (Vec.empty : Vec α).max_size = 0
    ∧ (v.push_back x).max_size = v.max_size + 1
    ∧ simple_veci.max_size = 12 := by
  refine ⟨rfl, rfl, ?_, by decide⟩
  simp [Vec.max_size, Vec.push_back]

end Vecor
